import Mathlib

/-!
Shallow embedding of `app.js` from the channelinsights repository.

The program is a browser data viewer: it loads a JSON document
(`currentData`), filters/sorts it according to three DOM controls
(search text, country select, sort select) and renders it; three
download functions re-filter the data into flat rows and serialize
them as CSV, JSON or a spreadsheet.

Modelling conventions:
* JS objects with string keys are insertion-ordered association lists.
* JS strings are Lean `String`s; `toLowerCase` is the character-wise
  `jsToLower` and `localeCompare` ordering is the lexicographic order
  `strLe` (locale collation is environment dependent).
* `Array.prototype.sort` with a comparator is modelled by the stable
  sort `jsSort` on the corresponding boolean relation.
* A thrown JS exception is modelled by `Option.none` / a `thrown`
  constructor.
* Mutation of the object graph (relevant only to the deep-copy claim)
  is modelled separately by an explicit address heap further below.
-/

namespace ChannelInsights

/-! ### Strings: `String.prototype.includes` -/

/-- JS `hay.includes(pat)` on char lists: `pat` occurs contiguously in `hay`. -/
def hasSubstr : List Char → List Char → Bool
  | [], pat => pat.isEmpty
  | c :: t, pat => pat.isPrefixOf (c :: t) || hasSubstr t pat

/-- JS `s.includes(sub)` for strings. -/
def jsIncludes (s sub : String) : Bool :=
  hasSubstr s.data sub.data

/-- JS `s.toLowerCase()`, modelled character-wise (as with locale
collation, the exact Unicode case mapping is environment detail). -/
def jsToLower (s : String) : String :=
  String.mk (s.data.map Char.toLower)

/-- Lexicographic order on character lists; the model of the total
order that `localeCompare` induces on strings. -/
def charListLe : List Char → List Char → Bool
  | [], _ => true
  | _ :: _, [] => false
  | a :: as, b :: bs => if a = b then charListLe as bs else decide (a < b)

/-- The string order used for the `localeCompare` comparators. -/
def strLe (a b : String) : Bool :=
  charListLe a.data b.data

/-- Insert into a sorted list, before the first element the new one
compares `le` to (the insertion step of a stable sort). -/
def jsSortInsert (le : α → α → Bool) (a : α) : List α → List α
  | [] => [a]
  | b :: l => if le a b then a :: b :: l else b :: jsSortInsert le a l

/-- `Array.prototype.sort` with comparator `le`: a stable sort, as the
ECMAScript specification requires.  (Insertion sort here; any stable
sort computes the same list for a total transitive `le`.) -/
def jsSort (le : α → α → Bool) : List α → List α
  | [] => []
  | a :: l => jsSortInsert le a (jsSort le l)

/-! ### Data model: the JSON documents consumed by the app -/

/-- One manufacturer / channel entity record: `{name, website?}`. -/
structure Item where
  name : String
  website : Option String
deriving Repr, DecidableEq, Inhabited

/-- The value stored under one country key.  Each field is optional,
matching the per-view JSON files (`states.json` has the division lists,
`manufacturers.json` the `manufacturers` list, the entity files the
`entities` list). -/
structure CountryData where
  states : Option (List String)
  provinces : Option (List String)
  territories : Option (List String)
  manufacturers : Option (List Item)
  entities : Option (List Item)
deriving Repr, DecidableEq, Inhabited

/-- The `metadata` object of a data file. -/
structure Metadata where
  source : String
  date_pulled : String
  total_manufacturers : Nat
  total_count : Nat
deriving Repr, DecidableEq, Inhabited

/-- The `'North America'` object: country name to country data. -/
abbrev NorthAmerica := List (String × CountryData)

/-- A whole loaded data document. -/
structure Document where
  metadata : Metadata
  northAmerica : NorthAmerica
deriving Repr, DecidableEq, Inhabited

/-- JS property read `na[c]` on the North-America object. -/
def naGet (na : NorthAmerica) (c : String) : Option CountryData :=
  (na.find? (fun p => p.1 == c)).map Prod.snd

/-- JS `Object.keys(na)`. -/
def naKeys (na : NorthAmerica) : List String :=
  na.map Prod.fst

/-- `entityTypes` from app.js. -/
def entityTypes : List String :=
  ["distributors", "buying_groups", "dealers", "pos_providers",
   "incentive_platforms", "sales_agencies", "integrators",
   "service_providers", "ecommerce_platforms"]

/-- `entityDefinitions` from app.js (country-agnostic text table). -/
def entityDefinitions : List (String × String) :=
  [("distributors", "Wholesale companies that purchase appliances from manufacturers and sell to dealers and retailers."),
   ("buying_groups", "Cooperative organizations that pool purchasing power to negotiate better terms with suppliers."),
   ("dealers", "Retail stores and outlets that sell appliances directly to consumers."),
   ("pos_providers", "Point-of-Sale system providers that offer transaction and inventory management solutions."),
   ("incentive_platforms", "Software platforms that manage rebates, rewards, and promotional incentive programs."),
   ("sales_agencies", "Independent sales representatives and agencies that represent manufacturers to retailers on commission."),
   ("integrators", "System integrators and solution providers that design, implement, and manage complex technology solutions."),
   ("service_providers", "Field service organizations that install, maintain, and repair appliances and equipment."),
   ("ecommerce_platforms", "Online marketplace and eCommerce platforms that enable digital sales channels for products.")]

/-! ### `applySortOption` -/

/-- Comparator of `case 'alphabetical'`: `keyFn(a).localeCompare(keyFn(b))`. -/
def leAlpha (keyFn : α → String) (a b : α) : Bool :=
  strLe (keyFn a) (keyFn b)

/-- Comparator of `case 'reverse'`: `keyFn(b).localeCompare(keyFn(a))`. -/
def leReverse (keyFn : α → String) (a b : α) : Bool :=
  strLe (keyFn b) (keyFn a)

/-- Comparator of `case 'length'`: `keyFn(a).length - keyFn(b).length`. -/
def leLength (keyFn : α → String) (a b : α) : Bool :=
  decide ((keyFn a).length ≤ (keyFn b).length)

/-- `applySortOption(array, sortOption, keyFn)` from app.js: copies the
array and sorts the copy with one of three comparators, or returns the
copy unsorted for any other option.  The JS `switch` is the equality
dispatch below; the stable in-place `.sort` on the copy is the stable
`jsSort`. -/
def applySortOption (array : List α) (sortOption : String) (keyFn : α → String) : List α :=
  if sortOption == "alphabetical" then jsSort (leAlpha keyFn) array
  else if sortOption == "reverse" then jsSort (leReverse keyFn) array
  else if sortOption == "length" then jsSort (leLength keyFn) array
  else array

/-! ### The flat list view (`renderFlatList`) -/

/-- An element of `allItems` in `renderFlatList`: `{...item, country}`. -/
structure FlatItem where
  name : String
  website : Option String
  country : String
deriving Repr, DecidableEq, Inhabited

/-- The spread `{...item, country: country}`. -/
def tagCountry (it : Item) (c : String) : FlatItem :=
  ⟨it.name, it.website, c⟩

/-- `northAmerica[country]?.manufacturers || []` respectively
`northAmerica[country]?.entities || []` (and `[]` for any other
`dataType`, matching the untouched `let items = []`). -/
def flatSourceItems (na : NorthAmerica) (dataType c : String) : List Item :=
  if dataType == "manufacturers" then ((naGet na c).bind CountryData.manufacturers).getD []
  else if dataType == "entities" then ((naGet na c).bind CountryData.entities).getD []
  else []

/-- The `allItems` collection loop of `renderFlatList`. -/
def collectFlatItems (na : NorthAmerica) (countries : List String) (dataType : String) : List FlatItem :=
  countries.flatMap (fun c => (flatSourceItems na dataType c).map (fun it => tagCountry it c))

/-- All items of a flat view over every country of the document. -/
def flatAllItems (doc : Document) (dataType : String) : List FlatItem :=
  collectFlatItems doc.northAmerica (naKeys doc.northAmerica) dataType

/-- The collect/filter/sort pipeline of `renderFlatList`; `searchTerm`
is already lowercased by the caller (`applyFilters`). -/
def renderFlatListPipeline (doc : Document) (searchTerm countryFilter sortOption dataType : String) : List FlatItem :=
  let na := doc.northAmerica
  let countries := if countryFilter == "all" then naKeys na else [countryFilter]
  let allItems := collectFlatItems na countries dataType
  let allItems := if searchTerm.isEmpty then allItems
                  else allItems.filter (fun it => jsIncludes (jsToLower it.name) searchTerm)
  applySortOption allItems sortOption (fun it => it.name)

/-- What the app puts into the `content` element, at the granularity the
claims need: an empty-state message, the flat item grid, or the
per-country sections of the states view. -/
inductive RenderedContent where
  | emptyState (msg : String)
  | itemsGrid (items : List FlatItem)
  | sections (secs : List (String × CountryData))
deriving Repr, DecidableEq, Inhabited

/-- `renderFlatList` proper: empty-state on no results, else the grid. -/
def renderFlatList (doc : Document) (searchTerm countryFilter sortOption dataType : String) : RenderedContent :=
  let allItems := renderFlatListPipeline doc searchTerm countryFilter sortOption dataType
  if allItems.length == 0 then .emptyState "No results found"
  else .itemsGrid allItems

/-! ### The states view of `applyFilters` (functional value level) -/

/-- The search filtering applied to one copied country object in the
states branch of `applyFilters` (each division list is filtered when the
field is present). -/
def searchFilterCD (cd : CountryData) (term : String) : CountryData :=
  { cd with
    states := cd.states.map (fun l => l.filter (fun s => jsIncludes (jsToLower s) term))
    provinces := cd.provinces.map (fun l => l.filter (fun s => jsIncludes (jsToLower s) term))
    territories := cd.territories.map (fun l => l.filter (fun s => jsIncludes (jsToLower s) term)) }

/-- The states branch of `sortData` applied to one country object. -/
def sortCD (cd : CountryData) (sortOption : String) : CountryData :=
  { cd with
    states := cd.states.map (fun l => applySortOption l sortOption (fun x => x))
    provinces := cd.provinces.map (fun l => applySortOption l sortOption (fun x => x))
    territories := cd.territories.map (fun l => applySortOption l sortOption (fun x => x)) }

/-- `hasStates || hasProvinces || hasTerritories` for one country in
`render`: a division must be present and non-empty. -/
def hasAnyDivision (cd : CountryData) : Bool :=
  decide ((cd.states.getD []).length > 0) ||
  decide ((cd.provinces.getD []).length > 0) ||
  decide ((cd.territories.getD []).length > 0)

/-- `render` of the states view, at `RenderedContent` granularity:
an empty object gives the empty state, countries with no divisions are
skipped, and if nothing remains the empty state is shown. -/
def renderStatesView (data : List (String × CountryData)) : RenderedContent :=
  if data.length == 0 then .emptyState "No results found"
  else
    let secs := data.filter (fun kv => hasAnyDivision kv.2)
    if secs.isEmpty then .emptyState "No results found" else .sections secs

/-- The states branch of `applyFilters` as a value-level function:
deep-copy (identity on values), country selection, search filtering,
sorting, rendering.  Returns `none` when the JS code would throw a
`TypeError`: with a country filter that is not a key of the document,
`filtered[countryFilter]` is `undefined` and the subsequent
`countryData.states` (or `countryData[key]` in `sortData`) access
throws.  The heap-level variant further below models the mutation. -/
def applyFiltersStates (doc : Document) (searchTerm countryFilter sortOption : String) : Option RenderedContent :=
  if countryFilter == "all" then
    let filtered := doc.northAmerica.map (fun kv => (kv.1,
      if searchTerm.isEmpty then kv.2 else searchFilterCD kv.2 searchTerm))
    let sorted := filtered.map (fun kv => (kv.1, sortCD kv.2 sortOption))
    some (renderStatesView sorted)
  else
    match naGet doc.northAmerica countryFilter with
    | none => none
    | some cd =>
      let cd1 := if searchTerm.isEmpty then cd else searchFilterCD cd searchTerm
      let cd2 := sortCD cd1 sortOption
      some (renderStatesView [(countryFilter, cd2)])

/-! ### Application state, `applyFilters`, `displayMetadata`, `loadData` -/

/-- The mutable browser state the claims mention: the two globals plus
the DOM controls and the two output elements. -/
structure AppState where
  currentView : String
  currentData : Option Document
  searchValue : String
  countryFilterValue : String
  sortValue : String
  content : RenderedContent
  metadataHtml : String

/-- `displayMetadata` as the text it writes into the metadata element;
`formatDate` abstracts the locale dependent
`new Date(...).toLocaleDateString()`. -/
def displayMetadata (currentView : String) (m : Metadata) (formatDate : String → String) : String :=
  let datePulled := formatDate m.date_pulled
  let source := if m.source == "hardcoded" then "Hardcoded Fallback" else m.source
  if currentView == "states" then
    "Data Source: " ++ source ++ " | Last Updated: " ++ datePulled
  else if currentView == "manufacturers" then
    "Data Source: " ++ source ++ " | Last Updated: " ++ datePulled ++
      " | Total: " ++ toString m.total_manufacturers
  else if entityTypes.contains currentView then
    let base := "Data Source: " ++ source ++ " | Last Updated: " ++ datePulled ++
      " | Total: " ++ toString m.total_count
    match (entityDefinitions.find? (fun p => p.1 == currentView)).map Prod.snd with
    | some defn => base ++ "<br><span class=\"entity-definition\">" ++ defn ++ "</span>"
    | none => base
  else ""

/-- `applyFilters`: early return without data; the states branch may
throw (`none`); both flat branches render through `renderFlatList`.
Only the `content` element is written. -/
def applyFilters (s : AppState) : Option AppState :=
  match s.currentData with
  | none => some s
  | some doc =>
    let searchTerm := jsToLower s.searchValue
    let countryFilter := s.countryFilterValue
    let sortOption := s.sortValue
    if s.currentView == "states" then
      match applyFiltersStates doc searchTerm countryFilter sortOption with
      | none => none
      | some c => some { s with content := c }
    else if s.currentView == "manufacturers" then
      some { s with content := renderFlatList doc searchTerm countryFilter sortOption "manufacturers" }
    else if entityTypes.contains s.currentView then
      some { s with content := renderFlatList doc searchTerm countryFilter sortOption "entities" }
    else some s

/-- `loadData`: `fetchParse` is the combined outcome of the `fetch` and
`response.json()` steps (`none` when either fails).  On success the
parsed document is assigned to `currentData`, the metadata is displayed
and `applyFilters` runs; any exception inside the `try` (including one
thrown by `applyFilters`) lands in the `catch`, which writes the error
empty state into the content element. -/
def loadData (fetchParse : Option Document) (formatDate : String → String) (s : AppState) : AppState :=
  match fetchParse with
  | none => { s with content := .emptyState "Error loading data" }
  | some data =>
    let s1 := { s with currentData := some data }
    let s2 := { s1 with metadataHtml := displayMetadata s1.currentView data.metadata formatDate }
    match applyFilters s2 with
    | some s3 => s3
    | none => { s2 with content := .emptyState "Error loading data" }

/-! ### `getCurrentFilteredData` -/

/-- A row object handed to the serializers: an insertion-ordered list of
field name / field value pairs. -/
abbrev Row := List (String × String)

/-- `mfr.website || ''`. -/
def jsOrEmpty : Option String → String
  | some s => s
  | none => ""

/-- A states-view row `{ Country, Type, Name }`. -/
def stateRow (c ty n : String) : Row :=
  [("Country", c), ("Type", ty), ("Name", n)]

/-- A manufacturers/entities row `{ Country, Name, Website }`. -/
def itemRow (c : String) (it : Item) : Row :=
  [("Country", c), ("Name", it.name), ("Website", jsOrEmpty it.website)]

/-- `itemRow` through a country-tagged item. -/
def flatRow (it : FlatItem) : Row :=
  [("Country", it.country), ("Name", it.name), ("Website", jsOrEmpty it.website)]

/-- `!searchTerm || name.toLowerCase().includes(searchTerm)`. -/
def matchesTerm (searchTerm name : String) : Bool :=
  searchTerm.isEmpty || jsIncludes (jsToLower name) searchTerm

/-- The rows pushed for one division list of one country. -/
def divRows (searchTerm c ty : String) (names : List String) : List Row :=
  (names.filter (fun n => matchesTerm searchTerm n)).map (fun n => stateRow c ty n)

/-- The states-view rows of one country. -/
def stateRowsOf (searchTerm c : String) (cd : CountryData) : List Row :=
  divRows searchTerm c "State" (cd.states.getD []) ++
  divRows searchTerm c "Province" (cd.provinces.getD []) ++
  divRows searchTerm c "Territory" (cd.territories.getD [])

/-- `getCurrentFilteredData`.  Returns `some []` without data.  The
`sortOption` select is read by the source but never used, which the
unused final parameter mirrors.  In the states branch a country filter
that is not a document key makes `northAmerica[country]` `undefined`
and `countryData.states` throw (`none`); the flat branches use optional
chaining and cannot throw. -/
def getCurrentFilteredData (currentView : String) (currentData : Option Document)
    (search countryFilter sortOption : String) : Option (List Row) :=
  match currentData with
  | none => some []
  | some doc =>
    let searchTerm := jsToLower search
    let na := doc.northAmerica
    let countries := if countryFilter == "all" then naKeys na else [countryFilter]
    if currentView == "states" then
      match countries.mapM (fun c => (naGet na c).map (fun cd => stateRowsOf searchTerm c cd)) with
      | none => none
      | some rowss => some rowss.flatten
    else if currentView == "manufacturers" then
      some (countries.flatMap (fun c =>
        ((flatSourceItems na "manufacturers" c).filter (fun it => matchesTerm searchTerm it.name)).map
          (fun it => itemRow c it)))
    else if entityTypes.contains currentView then
      some (countries.flatMap (fun c =>
        ((flatSourceItems na "entities" c).filter (fun it => matchesTerm searchTerm it.name)).map
          (fun it => itemRow c it)))
    else some []

/-! ### CSV serialization (`downloadCSV`) -/

/-- JS `value.replace(/"/g, '""')`: every double quote doubled. -/
def jsReplaceQuotes (v : String) : String :=
  String.mk (v.data.flatMap (fun ch => if ch = '"' then ['"', '"'] else [ch]))

/-- One CSV field: escape quotes, wrap in quotes. -/
def csvField (v : String) : String :=
  "\"" ++ jsReplaceQuotes v ++ "\""

/-- JS `row[h] || ''`: association lookup, empty string when absent. -/
def rowGet (row : Row) (h : String) : String :=
  match row.find? (fun p => p.1 == h) with
  | some p => p.2
  | none => ""

/-- The CSV text built by `downloadCSV` (headers from the first row,
then one escaped line per row, joined by newlines).  Only invoked
behind the non-empty guard. -/
def csvString (data : List Row) : String :=
  let headers := data.headI.map Prod.fst
  String.intercalate "\n"
    (String.intercalate "," headers ::
      data.map (fun row =>
        String.intercalate "," (headers.map (fun h => csvField (rowGet row h)))))

/-- Outcome of a download handler: a thrown exception, the
`alert('No data to download')` early return, or a produced file with
the given payload. -/
inductive DownloadResult (β : Type) where
  | thrown
  | alertNoData
  | file (payload : β)
deriving Repr, DecidableEq

/-- `downloadCSV`. -/
def downloadCSV (currentView : String) (currentData : Option Document)
    (search countryFilter sortOption : String) : DownloadResult String :=
  match getCurrentFilteredData currentView currentData search countryFilter sortOption with
  | none => .thrown
  | some data =>
    if data.length == 0 then .alertNoData
    else .file (csvString data)

/-! ### JSON serialization (`downloadJSON`) and a model of `JSON.parse` -/

/-- One lowercase hex digit. -/
def hexDigitChar (n : Nat) : Char :=
  if n < 10 then Char.ofNat (48 + n) else Char.ofNat (87 + n)

/-- The escaping `JSON.stringify` applies to one string character. -/
def jsonEscapeChar (c : Char) : List Char :=
  if c = '"' then ['\\', '"']
  else if c = '\\' then ['\\', '\\']
  else if c = '\x08' then ['\\', 'b']
  else if c = '\x0c' then ['\\', 'f']
  else if c = '\n' then ['\\', 'n']
  else if c = '\r' then ['\\', 'r']
  else if c = '\t' then ['\\', 't']
  else if c.toNat < 32 then
    ['\\', 'u', '0', '0', hexDigitChar (c.toNat / 16), hexDigitChar (c.toNat % 16)]
  else [c]

/-- The escaped body of a JSON string literal followed by the closing
quote and the continuation `k` (so `'"' :: encStrBodyK s.data k` is the
string literal for `s` followed by `k`).  Continuation style keeps the
emitted text in plain cons form; `encStrBodyK cs k` equals
`cs.flatMap jsonEscapeChar ++ '"' :: k`, see `encStrBodyK_eq`. -/
def encStrBodyK : List Char → List Char → List Char
  | [], k => '"' :: k
  | c :: cs, k => jsonEscapeChar c ++ encStrBodyK cs k

/-- One `"key": "value"` member line at indent 4, then `k`. -/
def fieldLineK (kv : String × String) (k : List Char) : List Char :=
  ' ' :: ' ' :: ' ' :: ' ' :: '"' ::
    encStrBodyK kv.1.data (':' :: ' ' :: '"' :: encStrBodyK kv.2.data k)

/-- The member lines joined by `",\n"`, then `k`. -/
def membersTextK : List (String × String) → List Char → List Char
  | [], k => k
  | [kv], k => fieldLineK kv k
  | kv :: rest, k => fieldLineK kv (',' :: '\n' :: membersTextK rest k)

/-- One row object at indent 2 in the `JSON.stringify(data, null, 2)`
layout, then `k`: `{}` when empty, otherwise the members between
braces with the closing brace at indent 2. -/
def rowTextK : Row → List Char → List Char
  | [], k => '\x7b' :: '\x7d' :: k
  | kv :: rest, k => '\x7b' :: '\n' :: membersTextK (kv :: rest) ('\n' :: ' ' :: ' ' :: '\x7d' :: k)

/-- The array elements, each behind the indent, joined by `",\n"`,
then `k`. -/
def rowsItemsK : List Row → List Char → List Char
  | [], k => k
  | [r], k => ' ' :: ' ' :: rowTextK r k
  | r :: rest, k => ' ' :: ' ' :: rowTextK r (',' :: '\n' :: rowsItemsK rest k)

/-- `JSON.stringify(data, null, 2)` for a list of flat string rows. -/
def jsonStringifyRows (rows : List Row) : String :=
  if rows.isEmpty then "[]"
  else String.mk ('[' :: '\n' :: rowsItemsK rows ['\n', ']'])

/-- `downloadJSON`. -/
def downloadJSON (currentView : String) (currentData : Option Document)
    (search countryFilter sortOption : String) : DownloadResult String :=
  match getCurrentFilteredData currentView currentData search countryFilter sortOption with
  | none => .thrown
  | some data =>
    if data.length == 0 then .alertNoData
    else .file (jsonStringifyRows data)

/-- `downloadExcel`: the row list itself is handed to the external
spreadsheet library, so the file payload is that list. -/
def downloadExcel (currentView : String) (currentData : Option Document)
    (search countryFilter sortOption : String) : DownloadResult (List Row) :=
  match getCurrentFilteredData currentView currentData search countryFilter sortOption with
  | none => .thrown
  | some data =>
    if data.length == 0 then .alertNoData
    else .file data

/-- JSON whitespace. -/
def wsChar (c : Char) : Bool :=
  c = ' ' || c = '\n' || c = '\t' || c = '\r'

/-- Skip leading JSON whitespace. -/
def skipWs : List Char → List Char
  | [] => []
  | c :: r => if wsChar c then skipWs r else c :: r

/-- Value of one hex digit. -/
def hexDigitVal (c : Char) : Option Nat :=
  if '0' ≤ c ∧ c ≤ '9' then some (c.toNat - 48)
  else if 'a' ≤ c ∧ c ≤ 'f' then some (c.toNat - 87)
  else if 'A' ≤ c ∧ c ≤ 'F' then some (c.toNat - 55)
  else none

/-- Parse the body of a JSON string literal (after the opening quote),
returning the decoded characters and the input after the closing
quote. -/
def parseStrBody : List Char → Option (List Char × List Char)
  | [] => none
  | c :: rest =>
    if c = '"' then some ([], rest)
    else if c = '\\' then
      match rest with
      | [] => none
      | e :: r =>
        if e = '"' then (parseStrBody r).map (fun p => ('"' :: p.1, p.2))
        else if e = '\\' then (parseStrBody r).map (fun p => ('\\' :: p.1, p.2))
        else if e = '/' then (parseStrBody r).map (fun p => ('/' :: p.1, p.2))
        else if e = 'b' then (parseStrBody r).map (fun p => ('\x08' :: p.1, p.2))
        else if e = 'f' then (parseStrBody r).map (fun p => ('\x0c' :: p.1, p.2))
        else if e = 'n' then (parseStrBody r).map (fun p => ('\n' :: p.1, p.2))
        else if e = 'r' then (parseStrBody r).map (fun p => ('\r' :: p.1, p.2))
        else if e = 't' then (parseStrBody r).map (fun p => ('\t' :: p.1, p.2))
        else if e = 'u' then
          match r with
          | h3 :: h2 :: h1 :: h0 :: r2 =>
            match hexDigitVal h3, hexDigitVal h2, hexDigitVal h1, hexDigitVal h0 with
            | some a, some b, some c, some d =>
              (parseStrBody r2).map (fun p =>
                (Char.ofNat (4096 * a + 256 * b + 16 * c + d) :: p.1, p.2))
            | _, _, _, _ => none
          | _ => none
        else none
    else (parseStrBody rest).map (fun p => (c :: p.1, p.2))

/-- Parse the quoted value after `"key":` (the opening quote already
consumed). -/
def parseValueQuote (kk : String) (r3 : List Char) : Option ((String × String) × List Char) :=
  match parseStrBody r3 with
  | some (v, r4) => some ((kk, String.mk v), r4)
  | none => none

/-- After the key string: expect `:` and the quoted value. -/
def parseKVAfterKey (kk : String) (r1 : List Char) : Option ((String × String) × List Char) :=
  match skipWs r1 with
  | ':' :: r2 =>
    match skipWs r2 with
    | '"' :: r3 => parseValueQuote kk r3
    | _ => none
  | _ => none

/-- After the key's opening quote: the key string, then the value. -/
def parseKVAfterKeyQuote (r : List Char) : Option ((String × String) × List Char) :=
  match parseStrBody r with
  | some (k, r1) => parseKVAfterKey (String.mk k) r1
  | none => none

/-- Parse one `"key": "value"` member. -/
def parseKV (l : List Char) : Option ((String × String) × List Char) :=
  match skipWs l with
  | '"' :: r => parseKVAfterKeyQuote r
  | _ => none

/-- Parse the members of a non-empty object up to the closing brace. -/
def parseObjMembers : Nat → List Char → Option (Row × List Char)
  | 0, _ => none
  | fuel + 1, l =>
    match parseKV l with
    | none => none
    | some (kv, r) =>
      match skipWs r with
      | ',' :: r2 => (parseObjMembers fuel r2).map (fun p => (kv :: p.1, p.2))
      | '\x7d' :: r2 => some ([kv], r2)
      | _ => none

/-- After the opening brace: the empty object or its members. -/
def parseObjBody (fuel : Nat) (r : List Char) : Option (Row × List Char) :=
  match skipWs r with
  | '\x7d' :: r2 => some ([], r2)
  | _ => parseObjMembers fuel r

/-- Parse one flat string object. -/
def parseObj (fuel : Nat) (l : List Char) : Option (Row × List Char) :=
  match skipWs l with
  | '\x7b' :: r => parseObjBody fuel r
  | _ => none

/-- Parse the elements of a non-empty array up to the closing bracket. -/
def parseRowsLoop (F : Nat) : Nat → List Char → Option (List Row × List Char)
  | 0, _ => none
  | fuel + 1, l =>
    match parseObj F l with
    | none => none
    | some (row, r) =>
      match skipWs r with
      | ',' :: r2 => (parseRowsLoop F fuel r2).map (fun p => (row :: p.1, p.2))
      | ']' :: r2 => some ([row], r2)
      | _ => none

/-- `JSON.parse` restricted to the sublanguage `downloadJSON` emits:
an array of flat objects with string keys and string values.  Fuel is
bounded by the input length, which suffices because every element and
every member consumes at least one character. -/
def jsonParseRows (s : String) : Option (List Row) :=
  let F := s.data.length + 1
  match skipWs s.data with
  | '[' :: r =>
    match skipWs r with
    | ']' :: r2 => if (skipWs r2).isEmpty then some [] else none
    | _ =>
      match parseRowsLoop F F r with
      | some (rows, rest) => if (skipWs rest).isEmpty then some rows else none
      | none => none
  | _ => none

/-! ### Heap models for the mutation claims

`applyFilters` (states view) mutates the country objects of
`JSON.parse(JSON.stringify(currentData['North America']))`, and
`applySortOption` sorts `[...array]` in place.  To make "leaves the
original unchanged" a real statement, objects live at addresses in an
explicit heap: the deep copy allocates fresh cells, and every write of
the pipeline targets those fresh cells. -/

/-- A heap of country objects; an address is an index. -/
structure Heap where
  cells : List CountryData

/-- Read a cell (JS property access through a reference). -/
def Heap.read (h : Heap) (a : Nat) : CountryData :=
  (h.cells[a]?).getD default

/-- Write a cell (JS property assignment through a reference). -/
def Heap.write (h : Heap) (a : Nat) (v : CountryData) : Heap :=
  ⟨h.cells.set a v⟩

/-- Allocate a fresh cell, returning its address. -/
def Heap.alloc (h : Heap) (v : CountryData) : Heap × Nat :=
  (⟨h.cells ++ [v]⟩, h.cells.length)

/-- The `'North America'` object with country objects by reference. -/
abbrev NARef := List (String × Nat)

/-- `JSON.parse(JSON.stringify(na))`: a fresh cell per country object,
holding an equal value. -/
def deepCopy : Heap → NARef → Heap × NARef
  | h, [] => (h, [])
  | h, (k, a) :: rest =>
    let ha := h.alloc (h.read a)
    let hr := deepCopy ha.1 rest
    (hr.1, (k, ha.2) :: hr.2)

/-- The search-filtering forEach of the states branch: each listed
country object is read, filtered and written back. -/
def searchMutate : Heap → NARef → String → Heap
  | h, [], _ => h
  | h, (_, a) :: rest, term =>
    searchMutate (h.write a (searchFilterCD (h.read a) term)) rest term

/-- The `sortData` forEach of the states view: each listed country
object is read, its division lists sorted, and written back. -/
def sortMutate : Heap → NARef → String → Heap
  | h, [], _ => h
  | h, (_, a) :: rest, opt =>
    sortMutate (h.write a (sortCD (h.read a) opt)) rest opt

/-- The states branch of `applyFilters` over the heap: deep copy,
country selection on the copy, search filtering, sorting.  (With a
country filter that is no key the JS code throws after the copy; the
model drops the undefined entry instead, which mutates strictly less
and leaves the frame statement identical.) -/
def applyFiltersStatesHeap (h : Heap) (na : NARef) (searchTerm countryFilter sortOption : String) :
    Heap × NARef :=
  let hc := deepCopy h na
  let sel := if countryFilter == "all" then hc.2 else hc.2.filter (fun kv => kv.1 == countryFilter)
  let h2 := if searchTerm.isEmpty then hc.1 else searchMutate hc.1 sel searchTerm
  let h3 := sortMutate h2 sel sortOption
  (h3, sel)

/-- A heap of JS arrays of `α`, for `applySortOption`. -/
structure ArrHeap (α : Type) where
  cells : List (List α)

/-- Read an array through its reference. -/
def ArrHeap.read (h : ArrHeap α) (a : Nat) : List α :=
  (h.cells[a]?).getD []

/-- Write an array through its reference. -/
def ArrHeap.write (h : ArrHeap α) (a : Nat) (v : List α) : ArrHeap α :=
  ⟨h.cells.set a v⟩

/-- Allocate a fresh array. -/
def ArrHeap.alloc (h : ArrHeap α) (v : List α) : ArrHeap α × Nat :=
  (⟨h.cells ++ [v]⟩, h.cells.length)

/-- `applySortOption` over the heap: `const sorted = [...array]`
allocates a fresh array holding the argument's elements, and the
in-place `.sort` writes only that fresh array. -/
def applySortOptionHeap (h : ArrHeap α) (arr : Nat) (sortOption : String) (keyFn : α → String) :
    ArrHeap α × Nat :=
  let hs := h.alloc (h.read arr)
  if sortOption == "alphabetical" then
    ((hs.1.write hs.2 (jsSort (leAlpha keyFn) (hs.1.read hs.2))), hs.2)
  else if sortOption == "reverse" then
    ((hs.1.write hs.2 (jsSort (leReverse keyFn) (hs.1.read hs.2))), hs.2)
  else if sortOption == "length" then
    ((hs.1.write hs.2 (jsSort (leLength keyFn) (hs.1.read hs.2))), hs.2)
  else (hs.1, hs.2)

/-! ### The export pipeline the spec describes, and concrete documents -/

/-- Modelled from the spec's words, for comparison with the code: rows
"obtained by filtering the view's items (substring match on name plus
country equality), sorting the filtered items with the selected
comparator, and then mapping each item to a row object". -/
def specExportRows (doc : Document) (search countryFilter sortOption dataType : String) : List Row :=
  let searchTerm := jsToLower search
  let filtered := (flatAllItems doc dataType).filter
    (fun it => jsIncludes (jsToLower it.name) searchTerm &&
               (countryFilter == "all" || it.country == countryFilter))
  (applySortOption filtered sortOption (fun it => it.name)).map flatRow

/-- A two-manufacturer document on which the unsorted export order is
observable. -/
def twoMfrDoc : Document :=
  { metadata := { source := "Wikidata", date_pulled := "2024-01-01",
                  total_manufacturers := 2, total_count := 0 },
    northAmerica :=
      [("United States",
        { states := none, provinces := none, territories := none,
          manufacturers := some [⟨"Beta", none⟩, ⟨"Acme", some "https://acme.example"⟩],
          entities := none })] }

/-- A small document exercising every view, used to instantiate the
universally quantified theorems at concrete inputs. -/
def sampleDoc : Document :=
  { metadata := { source := "GeoNames", date_pulled := "2024-02-02",
                  total_manufacturers := 2, total_count := 1 },
    northAmerica :=
      [("United States",
        { states := some ["Ohio", "Texas"], provinces := none, territories := none,
          manufacturers := some [⟨"Acme", some "https://acme.example"⟩, ⟨"Zeta", none⟩],
          entities := some [⟨"DistCo", none⟩] }),
       ("Canada",
        { states := none, provinces := some ["Ontario"], territories := some ["Yukon"],
          manufacturers := some [⟨"Maple", none⟩],
          entities := none })] }

/-! ## Helper lemmas -/

theorem hasSubstr_nil (l : List Char) : hasSubstr l [] = true := by
  cases l <;> simp [hasSubstr, List.isPrefixOf]

theorem jsIncludes_empty (s : String) : jsIncludes s "" = true := by
  simpa [jsIncludes] using hasSubstr_nil s.data

theorem matchesTerm_eq (t n : String) : matchesTerm t n = jsIncludes (jsToLower n) t := by
  by_cases h : t = ""
  · subst h
    simp [matchesTerm, jsIncludes_empty]
  · have ht : t.isEmpty = false := by
      cases hb : t.isEmpty
      · rfl
      · exact absurd ((String.isEmpty_iff t).mp hb) h
    simp [matchesTerm, ht]

theorem jsSortInsert_perm (le : α → α → Bool) (a : α) (l : List α) :
    (jsSortInsert le a l).Perm (a :: l) := by
  induction l with
  | nil => simp [jsSortInsert]
  | cons b t ih =>
    simp only [jsSortInsert]
    split
    · exact List.Perm.refl _
    · exact (ih.cons b).trans (List.Perm.swap a b t)

theorem jsSort_perm (le : α → α → Bool) (l : List α) : (jsSort le l).Perm l := by
  induction l with
  | nil => simp [jsSort]
  | cons a t ih =>
    exact (jsSortInsert_perm le a (jsSort le t)).trans (ih.cons a)

theorem mem_jsSort (le : α → α → Bool) (l : List α) (x : α) :
    x ∈ jsSort le l ↔ x ∈ l :=
  (jsSort_perm le l).mem_iff

theorem mem_jsSortInsert (le : α → α → Bool) (a : α) (l : List α) (x : α) :
    x ∈ jsSortInsert le a l ↔ x = a ∨ x ∈ l := by
  simpa using (jsSortInsert_perm le a l).mem_iff

theorem jsSortInsert_pairwise (le : α → α → Bool)
    (htrans : ∀ a b c, le a b = true → le b c = true → le a c = true)
    (htot : ∀ a b, le a b = true ∨ le b a = true) (a : α) (l : List α)
    (hl : l.Pairwise (fun x y => le x y = true)) :
    (jsSortInsert le a l).Pairwise (fun x y => le x y = true) := by
  induction l with
  | nil => simp [jsSortInsert]
  | cons b t ih =>
    rw [List.pairwise_cons] at hl
    simp only [jsSortInsert]
    split
    · rename_i hab
      rw [List.pairwise_cons]
      constructor
      · intro x hx
        rcases List.mem_cons.mp hx with h | h
        · subst h; exact hab
        · exact htrans a b x hab (hl.1 x h)
      · rw [List.pairwise_cons]
        exact hl
    · rename_i hab
      have hba : le b a = true := by
        rcases htot a b with h | h
        · exact absurd h hab
        · exact h
      rw [List.pairwise_cons]
      constructor
      · intro x hx
        rcases (mem_jsSortInsert le a t x).mp hx with h | h
        · subst h; exact hba
        · exact hl.1 x h
      · exact ih hl.2

theorem jsSort_pairwise (le : α → α → Bool)
    (htrans : ∀ a b c, le a b = true → le b c = true → le a c = true)
    (htot : ∀ a b, le a b = true ∨ le b a = true) (l : List α) :
    (jsSort le l).Pairwise (fun x y => le x y = true) := by
  induction l with
  | nil => simp [jsSort]
  | cons a t ih =>
    exact jsSortInsert_pairwise le htrans htot a (jsSort le t) ih

theorem charListLe_total : ∀ l1 l2 : List Char, charListLe l1 l2 = true ∨ charListLe l2 l1 = true := by
  intro l1
  induction l1 with
  | nil => intro l2; left; simp [charListLe]
  | cons a as ih =>
    intro l2
    cases l2 with
    | nil => right; simp [charListLe]
    | cons b bs =>
      by_cases hab : a = b
      · subst hab
        rcases ih bs with h | h
        · left; simpa [charListLe] using h
        · right; simpa [charListLe] using h
      · rcases lt_or_gt_of_ne hab with h | h
        · left; simp [charListLe, hab, h]
        · right; simp [charListLe, Ne.symm hab, h]

theorem charListLe_trans :
    ∀ l1 l2 l3 : List Char, charListLe l1 l2 = true → charListLe l2 l3 = true →
      charListLe l1 l3 = true := by
  intro l1
  induction l1 with
  | nil => intro l2 l3 _ _; simp [charListLe]
  | cons a as ih =>
    intro l2 l3 h12 h23
    cases l2 with
    | nil => simp [charListLe] at h12
    | cons b bs =>
      cases l3 with
      | nil => simp [charListLe] at h23
      | cons c cs =>
        by_cases hab : a = b
        · subst hab
          by_cases hac : a = c
          · subst hac
            simp only [charListLe, if_pos rfl] at h12 h23 ⊢
            exact ih bs cs h12 h23
          · simp only [charListLe, if_pos rfl] at h12
            simp only [charListLe, if_neg hac] at h23 ⊢
            exact h23
        · by_cases hbc : b = c
          · subst hbc
            simp only [charListLe, if_neg hab] at h12 ⊢
            exact h12
          · simp only [charListLe, if_neg hab] at h12
            simp only [charListLe, if_neg hbc] at h23
            have hlt : a < c := lt_trans (of_decide_eq_true h12) (of_decide_eq_true h23)
            have hac : a ≠ c := ne_of_lt hlt
            simp [charListLe, hac, hlt]

theorem strLe_trans (a b c : String) (h1 : strLe a b = true) (h2 : strLe b c = true) :
    strLe a c = true :=
  charListLe_trans a.data b.data c.data h1 h2

theorem strLe_total (a b : String) : strLe a b = true ∨ strLe b a = true :=
  charListLe_total a.data b.data

theorem applySortOption_perm (arr : List α) (sortOption : String) (keyFn : α → String) :
    (applySortOption arr sortOption keyFn).Perm arr := by
  unfold applySortOption
  split_ifs <;> first | exact jsSort_perm _ _ | exact List.Perm.refl _

theorem mem_applySortOption (arr : List α) (sortOption : String) (keyFn : α → String) (x : α) :
    x ∈ applySortOption arr sortOption keyFn ↔ x ∈ arr :=
  (applySortOption_perm arr sortOption keyFn).mem_iff

theorem country_of_mem_tag (items : List Item) (c : String) (it : FlatItem)
    (h : it ∈ items.map (fun x => tagCountry x c)) : it.country = c := by
  rcases List.mem_map.mp h with ⟨x, _, rfl⟩
  rfl

theorem flatSourceItems_key_mem (na : NorthAmerica) (ty c : String) (x : Item)
    (hx : x ∈ flatSourceItems na ty c) : c ∈ naKeys na := by
  cases hget : naGet na c with
  | none =>
    unfold flatSourceItems at hx
    split_ifs at hx <;> simp [hget] at hx
  | some cd =>
    rcases Option.map_eq_some'.mp hget with ⟨p, hfind, _⟩
    have hpmem := List.mem_of_find?_eq_some hfind
    have hpc : p.1 = c := by simpa using List.find?_some hfind
    exact hpc ▸ List.mem_map.mpr ⟨p, hpmem, rfl⟩

theorem mem_collect_all (na : NorthAmerica) (ty : String) (it : FlatItem) :
    it ∈ collectFlatItems na (naKeys na) ty ↔
      ∃ c ∈ naKeys na, it ∈ (flatSourceItems na ty c).map (fun x => tagCountry x c) := by
  simp [collectFlatItems, List.mem_flatMap]

theorem mem_collect_selected (na : NorthAmerica) (ty cf : String) (it : FlatItem) :
    it ∈ collectFlatItems na (if cf == "all" then naKeys na else [cf]) ty ↔
      (it ∈ collectFlatItems na (naKeys na) ty ∧ (cf = "all" ∨ it.country = cf)) := by
  by_cases hcf : cf = "all"
  · subst hcf
    simp
  · have hbeq : (cf == "all") = false := by
      simp [hcf]
    rw [hbeq]
    simp only [Bool.false_eq_true, if_false]
    constructor
    · intro h
      have h' : it ∈ (flatSourceItems na ty cf).map (fun x => tagCountry x cf) := by
        simpa [collectFlatItems] using h
      rcases List.mem_map.mp h' with ⟨x, hx, hxe⟩
      have hc : it.country = cf := by
        rw [← hxe]
        rfl
      have hkey : cf ∈ naKeys na := flatSourceItems_key_mem na ty cf x hx
      exact ⟨(mem_collect_all na ty it).mpr ⟨cf, hkey, h'⟩, Or.inr hc⟩
    · rintro ⟨hall, hcountry⟩
      rcases hcountry with h | h
      · exact absurd h hcf
      · rcases (mem_collect_all na ty it).mp hall with ⟨c, _, hit⟩
        have : it.country = c := country_of_mem_tag _ _ _ hit
        have hceq : c = cf := by rw [← this, h]
        subst hceq
        simpa [collectFlatItems] using hit

theorem mem_filterMapRow (na : NorthAmerica) (selected : List String) (ty term : String) (r : Row) :
    r ∈ selected.flatMap (fun c =>
        ((flatSourceItems na ty c).filter (fun it => matchesTerm term it.name)).map
          (fun it => itemRow c it)) ↔
      ∃ it : FlatItem, it ∈ collectFlatItems na selected ty ∧
        matchesTerm term it.name = true ∧ r = flatRow it := by
  simp only [List.mem_flatMap, List.mem_map, List.mem_filter, collectFlatItems]
  constructor
  · rintro ⟨c, hc, x, ⟨hx, hm⟩, rfl⟩
    exact ⟨tagCountry x c, ⟨c, hc, x, hx, rfl⟩, hm, rfl⟩
  · rintro ⟨it, ⟨c, hc, x, hx, rfl⟩, hm, rfl⟩
    exact ⟨c, hc, x, ⟨hx, hm⟩, rfl⟩

theorem entityTypes_ne_states_mfr (v : String) (h : entityTypes.contains v = true) :
    (v == "states") = false ∧ (v == "manufacturers") = false := by
  have hv : v ∈ entityTypes := by
    simpa using h
  simp only [entityTypes, List.mem_cons, List.not_mem_nil, or_false] at hv
  rcases hv with h|h|h|h|h|h|h|h|h <;> subst h <;> exact ⟨by decide, by decide⟩

/-! ## Claim theorems -/

/-- C1: for every loaded document, search string and country selection,
an item of a flat view (manufacturers or entities) is in the filtered
result of `renderFlatList` if and only if its lowercased name contains
the lowercased search string and the country filter is `all` or equals
the item's country; and membership in the rows of
`getCurrentFilteredData` for those views is governed by the same
condition. -/
theorem C1_flat_membership (doc : Document) (search countryFilter sortOption dataType currentView : String)
    (hty : dataType = "manufacturers" ∨ dataType = "entities")
    (hview : currentView = "manufacturers" ∨ currentView ∈ entityTypes) :
    (∀ it : FlatItem,
      it ∈ renderFlatListPipeline doc (jsToLower search) countryFilter sortOption dataType ↔
        (it ∈ flatAllItems doc dataType ∧
         jsIncludes (jsToLower it.name) (jsToLower search) = true ∧
         (countryFilter = "all" ∨ it.country = countryFilter))) ∧
    (∀ rows : List Row, ∀ r : Row,
      getCurrentFilteredData currentView (some doc) search countryFilter sortOption = some rows →
      (r ∈ rows ↔ ∃ it : FlatItem,
        it ∈ flatAllItems doc (if currentView = "manufacturers" then "manufacturers" else "entities") ∧
        jsIncludes (jsToLower it.name) (jsToLower search) = true ∧
        (countryFilter = "all" ∨ it.country = countryFilter) ∧ r = flatRow it)) := by
  constructor
  · intro it
    simp only [renderFlatListPipeline, mem_applySortOption]
    cases hterm : (jsToLower search).isEmpty with
    | true =>
      have hs : jsToLower search = "" := (String.isEmpty_iff _).mp hterm
      simp only [if_true]
      rw [mem_collect_selected]
      simp only [flatAllItems, hs, jsIncludes_empty]
      tauto
    | false =>
      simp only [Bool.false_eq_true, if_false, List.mem_filter]
      rw [mem_collect_selected]
      simp only [flatAllItems]
      tauto
  · intro rows r hrows
    rcases hview with hv | hv
    · subst hv
      have he : getCurrentFilteredData "manufacturers" (some doc) search countryFilter sortOption =
          some ((if countryFilter == "all" then naKeys doc.northAmerica else [countryFilter]).flatMap
            (fun c => ((flatSourceItems doc.northAmerica "manufacturers" c).filter
              (fun it => matchesTerm (jsToLower search) it.name)).map (fun it => itemRow c it))) := rfl
      rw [he] at hrows
      cases hrows
      rw [mem_filterMapRow]
      apply exists_congr
      intro it
      rw [mem_collect_selected, matchesTerm_eq, if_pos rfl]
      simp only [flatAllItems]
      tauto
    · have hc : entityTypes.contains currentView = true := by
        simpa using hv
      obtain ⟨hst, hmf⟩ := entityTypes_ne_states_mfr _ hc
      have he : getCurrentFilteredData currentView (some doc) search countryFilter sortOption =
          some ((if countryFilter == "all" then naKeys doc.northAmerica else [countryFilter]).flatMap
            (fun c => ((flatSourceItems doc.northAmerica "entities" c).filter
              (fun it => matchesTerm (jsToLower search) it.name)).map (fun it => itemRow c it))) := by
        simp only [getCurrentFilteredData, hst, hmf, hc, Bool.false_eq_true, if_false, if_true]
      rw [he] at hrows
      cases hrows
      rw [mem_filterMapRow]
      apply exists_congr
      intro it
      have hne : currentView ≠ "manufacturers" := beq_eq_false_iff_ne.mp hmf
      rw [mem_collect_selected, matchesTerm_eq, if_neg hne]
      simp only [flatAllItems]
      tauto

theorem C1_flat_membership_witness :
    FlatItem.mk "Acme" (some "https://acme.example") "United States" ∈
      renderFlatListPipeline sampleDoc (jsToLower "ac") "all" "alphabetical" "manufacturers" := by
  have h := C1_flat_membership sampleDoc "ac" "all" "alphabetical" "manufacturers" "manufacturers"
    (Or.inl rfl) (Or.inl rfl)
  exact (h.1 _).mpr ⟨by decide, by decide, Or.inl rfl⟩

/-- C3: `applySortOption` has exactly three comparators, selected by the
sort option: `alphabetical` sorts ascending in the `localeCompare`
order of the keys, `reverse` descending, `length` ascending by key
length, and every other option value returns the elements in their
original order.  Each sorted result is a permutation of the input. -/
theorem C3_applySortOption_comparators {α : Type} (arr : List α) (keyFn : α → String) :
    ((applySortOption arr "alphabetical" keyFn).Perm arr ∧
      (applySortOption arr "alphabetical" keyFn).Pairwise
        (fun a b => strLe (keyFn a) (keyFn b) = true)) ∧
    ((applySortOption arr "reverse" keyFn).Perm arr ∧
      (applySortOption arr "reverse" keyFn).Pairwise
        (fun a b => strLe (keyFn b) (keyFn a) = true)) ∧
    ((applySortOption arr "length" keyFn).Perm arr ∧
      (applySortOption arr "length" keyFn).Pairwise
        (fun a b => (keyFn a).length ≤ (keyFn b).length)) ∧
    (∀ sortOption : String,
      sortOption ≠ "alphabetical" → sortOption ≠ "reverse" → sortOption ≠ "length" →
      applySortOption arr sortOption keyFn = arr) := by
  have ea : applySortOption arr "alphabetical" keyFn = jsSort (leAlpha keyFn) arr := rfl
  have er : applySortOption arr "reverse" keyFn = jsSort (leReverse keyFn) arr := rfl
  have el : applySortOption arr "length" keyFn = jsSort (leLength keyFn) arr := rfl
  refine ⟨⟨?_, ?_⟩, ⟨?_, ?_⟩, ⟨?_, ?_⟩, ?_⟩
  · rw [ea]; exact jsSort_perm _ _
  · rw [ea]
    exact jsSort_pairwise (leAlpha keyFn)
      (fun a b c hab hbc => strLe_trans (keyFn a) (keyFn b) (keyFn c) hab hbc)
      (fun a b => strLe_total (keyFn a) (keyFn b)) arr
  · rw [er]; exact jsSort_perm _ _
  · rw [er]
    exact jsSort_pairwise (leReverse keyFn)
      (fun a b c hab hbc => strLe_trans (keyFn c) (keyFn b) (keyFn a) hbc hab)
      (fun a b => strLe_total (keyFn b) (keyFn a)) arr
  · rw [el]; exact jsSort_perm _ _
  · rw [el]
    have := jsSort_pairwise (leLength keyFn)
      (fun a b c hab hbc => decide_eq_true
        (Nat.le_trans (of_decide_eq_true hab) (of_decide_eq_true hbc)))
      (fun a b => (Nat.le_total _ _).imp decide_eq_true decide_eq_true) arr
    exact this.imp (fun h => of_decide_eq_true h)
  · intro sortOption h1 h2 h3
    have b1 : (sortOption == "alphabetical") = false := beq_eq_false_iff_ne.mpr h1
    have b2 : (sortOption == "reverse") = false := beq_eq_false_iff_ne.mpr h2
    have b3 : (sortOption == "length") = false := beq_eq_false_iff_ne.mpr h3
    simp [applySortOption, b1, b2, b3]

theorem C3_applySortOption_comparators_witness :
    applySortOption (["bb", "a"] : List String) "original" (fun x => x) = ["bb", "a"] :=
  (C3_applySortOption_comparators ["bb", "a"] (fun x => x)).2.2.2 "original"
    (by decide) (by decide) (by decide)

/-- C8: for every input array, sort option (including unrecognized
values) and key function, `applySortOption` returns a permutation of
its input: the same elements with the same multiplicities. -/
theorem C8_applySortOption_permutation {α : Type} (arr : List α) (sortOption : String)
    (keyFn : α → String) : (applySortOption arr sortOption keyFn).Perm arr :=
  applySortOption_perm arr sortOption keyFn

theorem filterMapRow_eq (na : NorthAmerica) (sel : List String) (ty term : String) :
    (sel.flatMap (fun c =>
      ((flatSourceItems na ty c).filter (fun it => matchesTerm term it.name)).map
        (fun it => itemRow c it))) =
    ((collectFlatItems na sel ty).filter (fun it => matchesTerm term it.name)).map flatRow := by
  induction sel with
  | nil => rfl
  | cons c cs ih =>
    simp only [collectFlatItems, List.flatMap_cons, List.filter_append, List.map_append] at *
    congr 1
    · rw [List.filter_map, List.map_map]
      rfl

theorem getCFD_flat_eq (doc : Document) (search countryFilter sortOption currentView ty : String)
    (h : (currentView = "manufacturers" ∧ ty = "manufacturers") ∨
         (currentView ∈ entityTypes ∧ ty = "entities")) :
    getCurrentFilteredData currentView (some doc) search countryFilter sortOption =
      some ((if countryFilter == "all" then naKeys doc.northAmerica else [countryFilter]).flatMap
        (fun c => ((flatSourceItems doc.northAmerica ty c).filter
          (fun it => matchesTerm (jsToLower search) it.name)).map (fun it => itemRow c it))) := by
  rcases h with ⟨hv, hty⟩ | ⟨hv, hty⟩
  · subst hv; subst hty
    rfl
  · subst hty
    have hc : entityTypes.contains currentView = true := by
      simpa using hv
    obtain ⟨hst, hmf⟩ := entityTypes_ne_states_mfr _ hc
    simp only [getCurrentFilteredData, hst, hmf, hc, Bool.false_eq_true, if_false, if_true]

/-- C2 counterexample: with two manufacturers stored as `Beta` before
`Acme` and the `alphabetical` sort selected, the rows handed to the
serializers are not the filter/sort/map pipeline result: the export
keeps document order and ignores the selected sort option. -/
theorem C2_counterexample :
    getCurrentFilteredData "manufacturers" (some twoMfrDoc) "" "all" "alphabetical" ≠
      some (specExportRows twoMfrDoc "" "all" "alphabetical" "manufacturers") := by
  decide

/-- C2 amended: for every flat view, search string, country selection
and sort option, the rows handed to the CSV, JSON and XLSX serializers
are the view's items filtered (substring match on the name plus country
selection) and mapped to row objects in document collection order; the
selected sort option has no effect on them. -/
theorem C2_export_rows_unsorted (doc : Document)
    (search countryFilter sortOption sortOption' currentView : String)
    (hview : currentView = "manufacturers" ∨ currentView ∈ entityTypes) :
    (getCurrentFilteredData currentView (some doc) search countryFilter sortOption =
      some (((collectFlatItems doc.northAmerica
          (if countryFilter == "all" then naKeys doc.northAmerica else [countryFilter])
          (if currentView = "manufacturers" then "manufacturers" else "entities")).filter
        (fun it => matchesTerm (jsToLower search) it.name)).map flatRow)) ∧
    (getCurrentFilteredData currentView (some doc) search countryFilter sortOption =
      getCurrentFilteredData currentView (some doc) search countryFilter sortOption') ∧
    (∀ rows, getCurrentFilteredData currentView (some doc) search countryFilter sortOption = some rows →
      rows ≠ [] →
      downloadCSV currentView (some doc) search countryFilter sortOption =
        .file (csvString rows) ∧
      downloadJSON currentView (some doc) search countryFilter sortOption =
        .file (jsonStringifyRows rows) ∧
      downloadExcel currentView (some doc) search countryFilter sortOption = .file rows) := by
  refine ⟨?_, rfl, ?_⟩
  · rcases hview with hv | hv
    · rw [getCFD_flat_eq doc search countryFilter sortOption currentView "manufacturers"
        (Or.inl ⟨hv, rfl⟩), filterMapRow_eq]
      subst hv
      rw [if_pos rfl]
    · have hc : entityTypes.contains currentView = true := by
        simpa using hv
      obtain ⟨_, hmf⟩ := entityTypes_ne_states_mfr _ hc
      have hne : currentView ≠ "manufacturers" := beq_eq_false_iff_ne.mp hmf
      rw [getCFD_flat_eq doc search countryFilter sortOption currentView "entities"
        (Or.inr ⟨hv, rfl⟩), filterMapRow_eq]
      rw [if_neg hne]
  · intro rows h hne
    have hlen : (rows.length == 0) = false := by
      cases rows with
      | nil => exact absurd rfl hne
      | cons a t => rfl
    unfold downloadCSV downloadJSON downloadExcel
    rw [h]
    simp only [hlen, Bool.false_eq_true, if_false]
    exact ⟨trivial, trivial, trivial⟩

theorem C2_export_rows_unsorted_witness :
    downloadCSV "manufacturers" (some sampleDoc) "" "all" "reverse" =
      .file (csvString [itemRow "United States" ⟨"Acme", some "https://acme.example"⟩,
                        itemRow "United States" ⟨"Zeta", none⟩,
                        itemRow "Canada" ⟨"Maple", none⟩]) := by
  have h := C2_export_rows_unsorted sampleDoc "" "all" "reverse" "alphabetical" "manufacturers"
    (Or.inl rfl)
  exact (h.2.2 _ (by decide) (by decide)).1

/-- C4: for every non-empty filtered row list, the produced CSV is the
first row's column names joined by commas, followed by one line per
row in which every field value has each double quote doubled and is
wrapped in double quotes, fields joined by commas and lines by a
single newline. -/
theorem C4_downloadCSV_format (currentView : String) (currentData : Option Document)
    (search countryFilter sortOption : String) (data : List Row) (r0 : Row) (rest : List Row)
    (hget : getCurrentFilteredData currentView currentData search countryFilter sortOption = some data)
    (hdata : data = r0 :: rest) :
    downloadCSV currentView currentData search countryFilter sortOption =
      .file (String.intercalate "\n"
        (String.intercalate "," (r0.map Prod.fst) ::
          data.map (fun row => String.intercalate ","
            ((r0.map Prod.fst).map (fun h =>
              "\"" ++ jsReplaceQuotes (rowGet row h) ++ "\""))))) := by
  subst hdata
  unfold downloadCSV
  rw [hget]
  rfl

theorem C4_downloadCSV_format_witness :
    downloadCSV "manufacturers" (some sampleDoc) "zeta" "all" "alphabetical" =
      .file "Country,Name,Website\n\"United States\",\"Zeta\",\"\"" := by
  have h := C4_downloadCSV_format "manufacturers" (some sampleDoc) "zeta" "all" "alphabetical"
    [itemRow "United States" ⟨"Zeta", none⟩] (itemRow "United States" ⟨"Zeta", none⟩) []
    (by decide) rfl
  rw [h]
  rfl

/-- C10: with no loaded document `getCurrentFilteredData` returns the
empty row list, and whenever it returns the empty row list each of the
three download handlers stops at the `alert` early return and produces
no file. -/
theorem C10_empty_download_guard :
    (∀ currentView search countryFilter sortOption : String,
      getCurrentFilteredData currentView none search countryFilter sortOption = some []) ∧
    (∀ currentView currentData search countryFilter sortOption,
      getCurrentFilteredData currentView currentData search countryFilter sortOption = some [] →
        downloadCSV currentView currentData search countryFilter sortOption = .alertNoData ∧
        downloadJSON currentView currentData search countryFilter sortOption = .alertNoData ∧
        downloadExcel currentView currentData search countryFilter sortOption = .alertNoData) := by
  constructor
  · intro v s cf o
    rfl
  · intro v d s cf o h
    unfold downloadCSV downloadJSON downloadExcel
    rw [h]
    exact ⟨rfl, rfl, rfl⟩

theorem C10_empty_download_guard_witness :
    downloadCSV "states" none "" "all" "alphabetical" = .alertNoData :=
  (C10_empty_download_guard.2 "states" none "" "all" "alphabetical" (by decide)).1

theorem applyFilters_currentData (s t : AppState) (h : applyFilters s = some t) :
    t.currentData = s.currentData := by
  obtain ⟨cv, cd, sv, cfv, so, ct, mh⟩ := s
  cases cd with
  | none =>
    simp only [applyFilters] at h
    cases h
    rfl
  | some doc =>
    simp only [applyFilters] at h
    split_ifs at h
    · cases happ : applyFiltersStates doc (jsToLower sv) cfv so with
      | none => rw [happ] at h; cases h
      | some c => rw [happ] at h; cases h; rfl
    · cases h; rfl
    · cases h; rfl
    · cases h; rfl

/-- C5: when the fetch or the JSON parsing fails, `loadData` leaves
`currentData` unchanged and sets the content area to the
`Error loading data` empty state; it assigns the parsed document to
`currentData` exactly when both steps succeed. -/
theorem C5_loadData_error_handling (formatDate : String → String) (s : AppState) (d : Document) :
    ((loadData none formatDate s).currentData = s.currentData ∧
     (loadData none formatDate s).content = RenderedContent.emptyState "Error loading data") ∧
    (loadData (some d) formatDate s).currentData = some d := by
  refine ⟨⟨rfl, rfl⟩, ?_⟩
  unfold loadData
  have h2 : ∀ s2 : AppState, s2.currentData = some d →
      (match applyFilters s2 with
       | some s3 => s3
       | none =>
         { s2 with content := RenderedContent.emptyState "Error loading data" }).currentData =
        some d := by
    intro s2 hs2
    cases happ : applyFilters s2 with
    | some s3 => simpa [applyFilters_currentData s2 s3 happ] using hs2
    | none => simpa using hs2
  exact h2 _ rfl

theorem mapM_option_mem {α β : Type} (f : α → Option β) :
    ∀ (l : List α) (out : List β), l.mapM f = some out → ∀ b ∈ out, ∃ a ∈ l, f a = some b := by
  intro l
  induction l with
  | nil =>
    intro out h b hb
    simp only [List.mapM_nil, pure, Option.some.injEq] at h
    subst h
    cases hb
  | cons a t ih =>
    intro out h b hb
    rw [List.mapM_cons] at h
    cases hfa : f a with
    | none => rw [hfa] at h; simp at h
    | some x =>
      rw [hfa] at h
      cases hmt : t.mapM f with
      | none => rw [hmt] at h; simp at h
      | some xs =>
        rw [hmt] at h
        simp at h
        subst h
        rcases List.mem_cons.mp hb with rfl | hbmem
        · exact ⟨a, List.mem_cons_self a t, hfa⟩
        · rcases ih xs hmt b hbmem with ⟨a', ha', hfa'⟩
          exact ⟨a', List.mem_cons_of_mem a ha', hfa'⟩

/-- C9: every row of a single `getCurrentFilteredData` call carries the
same keys — `Country, Type, Name` in the states view and
`Country, Name, Website` in the manufacturers and entity views — so the
header `downloadCSV` takes from the first row names exactly the fields
of every exported row. -/
theorem C9_row_keys (currentView : String) (currentData : Option Document)
    (search countryFilter sortOption : String) (rows : List Row)
    (hget : getCurrentFilteredData currentView currentData search countryFilter sortOption =
      some rows) :
    (currentView = "states" → ∀ r ∈ rows, r.map Prod.fst = ["Country", "Type", "Name"]) ∧
    (currentView = "manufacturers" ∨ currentView ∈ entityTypes →
      ∀ r ∈ rows, r.map Prod.fst = ["Country", "Name", "Website"]) ∧
    (∀ r ∈ rows, r.map Prod.fst = rows.headI.map Prod.fst) := by
  have hA : currentView = "states" → ∀ r ∈ rows, r.map Prod.fst = ["Country", "Type", "Name"] := by
    intro hv r hr
    subst hv
    cases currentData with
    | none =>
      injection hget with h9
      subst h9
      cases hr
    | some doc =>
      have he : getCurrentFilteredData "states" (some doc) search countryFilter sortOption =
          match (if countryFilter == "all" then naKeys doc.northAmerica else [countryFilter]).mapM
              (fun c => (naGet doc.northAmerica c).map
                (fun cd => stateRowsOf (jsToLower search) c cd)) with
          | none => none
          | some rowss => some rowss.flatten := rfl
      rw [he] at hget
      cases hmm : (if countryFilter == "all" then naKeys doc.northAmerica
          else [countryFilter]).mapM
          (fun c => (naGet doc.northAmerica c).map
            (fun cd => stateRowsOf (jsToLower search) c cd)) with
      | none => rw [hmm] at hget; cases hget
      | some rowss =>
        rw [hmm] at hget
        injection hget with h9
        subst h9
        rcases List.mem_flatten.mp hr with ⟨l, hl, hrl⟩
        rcases mapM_option_mem _ _ rowss hmm l hl with ⟨c, _, hfc⟩
        rcases Option.map_eq_some'.mp hfc with ⟨cd, _, rfl⟩
        simp only [stateRowsOf, divRows, List.mem_append, List.mem_map] at hrl
        rcases hrl with (⟨n, _, rfl⟩ | ⟨n, _, rfl⟩) | ⟨n, _, rfl⟩ <;> rfl
  have hB : currentView = "manufacturers" ∨ currentView ∈ entityTypes →
      ∀ r ∈ rows, r.map Prod.fst = ["Country", "Name", "Website"] := by
    intro hv r hr
    cases currentData with
    | none =>
      injection hget with h9
      subst h9
      cases hr
    | some doc =>
      have he : getCurrentFilteredData currentView (some doc) search countryFilter sortOption =
          some ((if countryFilter == "all" then naKeys doc.northAmerica
              else [countryFilter]).flatMap
            (fun c => ((flatSourceItems doc.northAmerica
                (if currentView = "manufacturers" then "manufacturers" else "entities") c).filter
              (fun it => matchesTerm (jsToLower search) it.name)).map (fun it => itemRow c it))) := by
        rcases hv with hv | hv
        · rw [if_pos hv]
          exact getCFD_flat_eq doc search countryFilter sortOption currentView "manufacturers"
            (Or.inl ⟨hv, rfl⟩)
        · have hc : entityTypes.contains currentView = true := by
            simpa using hv
          obtain ⟨_, hmf⟩ := entityTypes_ne_states_mfr _ hc
          rw [if_neg (beq_eq_false_iff_ne.mp hmf)]
          exact getCFD_flat_eq doc search countryFilter sortOption currentView "entities"
            (Or.inr ⟨hv, rfl⟩)
      rw [he] at hget
      injection hget with h9
      subst h9
      simp only [List.mem_flatMap, List.mem_map, List.mem_filter] at hr
      rcases hr with ⟨c, _, it, _, rfl⟩
      rfl
  refine ⟨hA, hB, ?_⟩
  by_cases h1 : currentView = "states"
  · intro r hr
    cases rows with
    | nil => cases hr
    | cons r0 t =>
      rw [hA h1 r hr, show (r0 :: t : List Row).headI = r0 from rfl,
        hA h1 r0 (List.mem_cons_self _ _)]
  · by_cases h2 : currentView = "manufacturers" ∨ currentView ∈ entityTypes
    · intro r hr
      cases rows with
      | nil => cases hr
      | cons r0 t =>
        rw [hB h2 r hr, show (r0 :: t : List Row).headI = r0 from rfl,
          hB h2 r0 (List.mem_cons_self _ _)]
    · intro r hr
      exfalso
      rcases not_or.mp h2 with ⟨h2m, h2e⟩
      cases currentData with
      | none =>
        injection hget with h9
        subst h9
        cases hr
      | some doc =>
        have hb1 : (currentView == "states") = false := beq_eq_false_iff_ne.mpr h1
        have hb2 : (currentView == "manufacturers") = false := beq_eq_false_iff_ne.mpr h2m
        have hb3 : entityTypes.contains currentView = false := by
          cases hcon : entityTypes.contains currentView
          · rfl
          · exact absurd (by simpa using hcon) h2e
        have he : getCurrentFilteredData currentView (some doc) search countryFilter sortOption =
            some [] := by
          simp only [getCurrentFilteredData, hb1, hb2, hb3, Bool.false_eq_true, if_false]
        rw [he] at hget
        injection hget with h9
        subst h9
        cases hr

theorem C9_row_keys_witness :
    (stateRow "United States" "State" "Ohio").map Prod.fst = ["Country", "Type", "Name"] := by
  have h := C9_row_keys "states" (some sampleDoc) "" "all" "alphabetical"
    [stateRow "United States" "State" "Ohio", stateRow "United States" "State" "Texas",
     stateRow "Canada" "Province" "Ontario", stateRow "Canada" "Territory" "Yukon"]
    (by decide)
  exact h.1 rfl _ (by decide)

theorem deepCopy_cells_append (na : NARef) :
    ∀ h : Heap, ∃ t, (deepCopy h na).1.cells = h.cells ++ t := by
  induction na with
  | nil => intro h; exact ⟨[], by simp [deepCopy]⟩
  | cons kv rest ih =>
    intro h
    obtain ⟨t, ht⟩ := ih ⟨h.cells ++ [h.read kv.2]⟩
    refine ⟨h.read kv.2 :: t, ?_⟩
    show (deepCopy ⟨h.cells ++ [h.read kv.2]⟩ rest).1.cells = _
    rw [ht]
    simp

theorem deepCopy_addrs_ge (na : NARef) :
    ∀ h : Heap, ∀ kv ∈ (deepCopy h na).2, h.cells.length ≤ kv.2 := by
  induction na with
  | nil => intro h kv hkv; simp [deepCopy] at hkv
  | cons kv0 rest ih =>
    intro h kv hkv
    have he : (deepCopy h (kv0 :: rest)).2 =
        (kv0.1, h.cells.length) :: (deepCopy ⟨h.cells ++ [h.read kv0.2]⟩ rest).2 := rfl
    rw [he] at hkv
    rcases List.mem_cons.mp hkv with rfl | hmem
    · exact Nat.le_refl _
    · have := ih ⟨h.cells ++ [h.read kv0.2]⟩ kv hmem
      simp only [List.length_append, List.length_singleton] at this
      omega

theorem Heap_write_preserve (h : Heap) (a : Nat) (v : CountryData) (i : Nat) (hne : a ≠ i) :
    (h.write a v).cells[i]? = h.cells[i]? := by
  simp [Heap.write, List.getElem?_set_ne hne]

theorem searchMutate_preserve (term : String) :
    ∀ (na : NARef) (h : Heap) (i : Nat), (∀ kv ∈ na, kv.2 ≠ i) →
      (searchMutate h na term).cells[i]? = h.cells[i]? := by
  intro na
  induction na with
  | nil => intro h i _; rfl
  | cons kv rest ih =>
    intro h i hna
    have he : searchMutate h (kv :: rest) term =
        searchMutate (h.write kv.2 (searchFilterCD (h.read kv.2) term)) rest term := rfl
    rw [he, ih _ i (fun kv' h' => hna kv' (List.mem_cons_of_mem _ h')),
      Heap_write_preserve _ _ _ _ (hna kv (List.mem_cons_self _ _))]

theorem sortMutate_preserve (opt : String) :
    ∀ (na : NARef) (h : Heap) (i : Nat), (∀ kv ∈ na, kv.2 ≠ i) →
      (sortMutate h na opt).cells[i]? = h.cells[i]? := by
  intro na
  induction na with
  | nil => intro h i _; rfl
  | cons kv rest ih =>
    intro h i hna
    have he : sortMutate h (kv :: rest) opt =
        sortMutate (h.write kv.2 (sortCD (h.read kv.2) opt)) rest opt := rfl
    rw [he, ih _ i (fun kv' h' => hna kv' (List.mem_cons_of_mem _ h')),
      Heap_write_preserve _ _ _ _ (hna kv (List.mem_cons_self _ _))]

theorem applyFiltersStatesHeap_frame (h : Heap) (na : NARef)
    (searchTerm countryFilter sortOption : String) (i : Nat) (hi : i < h.cells.length) :
    (applyFiltersStatesHeap h na searchTerm countryFilter sortOption).1.cells[i]? =
      h.cells[i]? := by
  have e : (applyFiltersStatesHeap h na searchTerm countryFilter sortOption).1 =
      sortMutate
        (if searchTerm.isEmpty then (deepCopy h na).1
         else searchMutate (deepCopy h na).1
           (if countryFilter == "all" then (deepCopy h na).2
            else (deepCopy h na).2.filter (fun kv => kv.1 == countryFilter))
           searchTerm)
        (if countryFilter == "all" then (deepCopy h na).2
         else (deepCopy h na).2.filter (fun kv => kv.1 == countryFilter))
        sortOption := rfl
  rw [e]
  have hselge : ∀ kv ∈ (if countryFilter == "all" then (deepCopy h na).2
      else (deepCopy h na).2.filter (fun kv => kv.1 == countryFilter)),
      h.cells.length ≤ kv.2 := by
    intro kv hkv
    apply deepCopy_addrs_ge na h kv
    split at hkv
    · exact hkv
    · exact List.mem_of_mem_filter hkv
  have hne : ∀ kv ∈ (if countryFilter == "all" then (deepCopy h na).2
      else (deepCopy h na).2.filter (fun kv => kv.1 == countryFilter)), kv.2 ≠ i := by
    intro kv hkv
    have := hselge kv hkv
    omega
  rw [sortMutate_preserve sortOption _ _ i hne]
  have hmid : (if searchTerm.isEmpty then (deepCopy h na).1
      else searchMutate (deepCopy h na).1
        (if countryFilter == "all" then (deepCopy h na).2
         else (deepCopy h na).2.filter (fun kv => kv.1 == countryFilter))
        searchTerm).cells[i]? = (deepCopy h na).1.cells[i]? := by
    split
    · rfl
    · exact searchMutate_preserve searchTerm _ _ i hne
  rw [hmid]
  obtain ⟨t, ht⟩ := deepCopy_cells_append na h
  rw [ht]
  simp [List.getElem?_append, hi]

theorem applySortOptionHeap_spec {α : Type} (ah : ArrHeap α) (arr : Nat) (sortOption : String)
    (keyFn : α → String) (j : Nat) (hj : j < ah.cells.length) :
    (applySortOptionHeap ah arr sortOption keyFn).1.cells[j]? = ah.cells[j]? ∧
    (applySortOptionHeap ah arr sortOption keyFn).2 = ah.cells.length ∧
    (applySortOptionHeap ah arr sortOption keyFn).1.read
        (applySortOptionHeap ah arr sortOption keyFn).2 =
      applySortOption (ah.read arr) sortOption keyFn := by
  have hwp : ∀ v : List α,
      ((⟨ah.cells ++ [ah.read arr]⟩ : ArrHeap α).write ah.cells.length v).cells[j]? =
        ah.cells[j]? := by
    intro v
    have h1 : ((ah.cells ++ [ah.read arr]).set ah.cells.length v)[j]? =
        (ah.cells ++ [ah.read arr])[j]? :=
      List.getElem?_set_ne (by omega)
    have h2 : (ah.cells ++ [ah.read arr])[j]? = ah.cells[j]? := by
      simp [List.getElem?_append, hj]
    simpa [ArrHeap.write] using h1.trans h2
  have hap : (ah.cells ++ [ah.read arr])[ah.cells.length]? = some (ah.read arr) :=
    List.getElem?_concat_length _ _
  have hwr : ∀ v : List α,
      ((⟨ah.cells ++ [ah.read arr]⟩ : ArrHeap α).write ah.cells.length v).read
        ah.cells.length = v := by
    intro v
    have : ((ah.cells ++ [ah.read arr]).set ah.cells.length v)[ah.cells.length]? = some v :=
      List.getElem?_set_self (by simp)
    simp [ArrHeap.write, ArrHeap.read, this]
  have hrd : (⟨ah.cells ++ [ah.read arr]⟩ : ArrHeap α).read ah.cells.length = ah.read arr := by
    simp [ArrHeap.read, hap]
  by_cases h1 : (sortOption == "alphabetical") = true
  · have hv : sortOption = "alphabetical" := beq_iff_eq.mp h1
    subst hv
    refine ⟨hwp _, rfl, ?_⟩
    rw [show (applySortOptionHeap ah arr "alphabetical" keyFn).1.read
      (applySortOptionHeap ah arr "alphabetical" keyFn).2 =
        ((⟨ah.cells ++ [ah.read arr]⟩ : ArrHeap α).write ah.cells.length
          (jsSort (leAlpha keyFn) ((⟨ah.cells ++ [ah.read arr]⟩ : ArrHeap α).read
            ah.cells.length))).read ah.cells.length from rfl, hwr, hrd]
    rfl
  · by_cases h2 : (sortOption == "reverse") = true
    · have hv : sortOption = "reverse" := beq_iff_eq.mp h2
      subst hv
      refine ⟨hwp _, rfl, ?_⟩
      rw [show (applySortOptionHeap ah arr "reverse" keyFn).1.read
        (applySortOptionHeap ah arr "reverse" keyFn).2 =
          ((⟨ah.cells ++ [ah.read arr]⟩ : ArrHeap α).write ah.cells.length
            (jsSort (leReverse keyFn) ((⟨ah.cells ++ [ah.read arr]⟩ : ArrHeap α).read
              ah.cells.length))).read ah.cells.length from rfl, hwr, hrd]
      rfl
    · by_cases h3 : (sortOption == "length") = true
      · have hv : sortOption = "length" := beq_iff_eq.mp h3
        subst hv
        refine ⟨hwp _, rfl, ?_⟩
        rw [show (applySortOptionHeap ah arr "length" keyFn).1.read
          (applySortOptionHeap ah arr "length" keyFn).2 =
            ((⟨ah.cells ++ [ah.read arr]⟩ : ArrHeap α).write ah.cells.length
              (jsSort (leLength keyFn) ((⟨ah.cells ++ [ah.read arr]⟩ : ArrHeap α).read
                ah.cells.length))).read ah.cells.length from rfl, hwr, hrd]
        rfl
      · have hb1 : (sortOption == "alphabetical") = false := by
          cases hx : (sortOption == "alphabetical")
          · rfl
          · exact absurd hx h1
        have hb2 : (sortOption == "reverse") = false := by
          cases hx : (sortOption == "reverse")
          · rfl
          · exact absurd hx h2
        have hb3 : (sortOption == "length") = false := by
          cases hx : (sortOption == "length")
          · rfl
          · exact absurd hx h3
        have e : applySortOptionHeap ah arr sortOption keyFn =
            ((⟨ah.cells ++ [ah.read arr]⟩ : ArrHeap α), ah.cells.length) := by
          simp only [applySortOptionHeap, ArrHeap.alloc, hb1, hb2, hb3, Bool.false_eq_true,
            if_false]
        rw [e]
        refine ⟨?_, rfl, ?_⟩
        · simp [List.getElem?_append, hj]
        · rw [hrd]
          simp [applySortOption, hb1, hb2, hb3]

/-- C7: the filter/sort pipeline only mutates the deep copy: the states
branch of `applyFilters`, run over the explicit heap, leaves every
pre-existing cell (in particular the document reached from
`currentData`) unchanged, and functionally `applyFilters` never writes
`currentData`; `applySortOptionHeap` allocates a fresh array (its
result address is outside the existing heap), leaves every existing
cell including its argument array unchanged, and the fresh array holds
exactly the functional `applySortOption` result. -/
theorem C7_filter_sort_purity (h : Heap) (na : NARef)
    (searchTerm countryFilter sortOption : String) (i : Nat) (hi : i < h.cells.length)
    {α : Type} (ah : ArrHeap α) (arr : Nat) (sortOption' : String) (keyFn : α → String)
    (j : Nat) (hj : j < ah.cells.length) :
    ((applyFiltersStatesHeap h na searchTerm countryFilter sortOption).1.cells[i]? =
      h.cells[i]?) ∧
    ((applySortOptionHeap ah arr sortOption' keyFn).1.cells[j]? = ah.cells[j]?) ∧
    ((applySortOptionHeap ah arr sortOption' keyFn).2 = ah.cells.length) ∧
    ((applySortOptionHeap ah arr sortOption' keyFn).1.read
        (applySortOptionHeap ah arr sortOption' keyFn).2 =
      applySortOption (ah.read arr) sortOption' keyFn) ∧
    (∀ s t : AppState, applyFilters s = some t → t.currentData = s.currentData) := by
  obtain ⟨hp, hf, hv⟩ := applySortOptionHeap_spec ah arr sortOption' keyFn j hj
  exact ⟨applyFiltersStatesHeap_frame h na searchTerm countryFilter sortOption i hi,
    hp, hf, hv, applyFilters_currentData⟩

theorem C7_filter_sort_purity_witness :
    (applyFiltersStatesHeap ⟨[(default : CountryData)]⟩ [("United States", 0)]
        "x" "all" "alphabetical").1.cells[0]? =
      (⟨[(default : CountryData)]⟩ : Heap).cells[0]? :=
  (C7_filter_sort_purity ⟨[(default : CountryData)]⟩ [("United States", 0)]
    "x" "all" "alphabetical" 0 (by decide)
    (⟨[["b", "a"]]⟩ : ArrHeap String) 0 "reverse" (fun x => x) 0 (by decide)).1

theorem hexVal_hexDigitChar (n : Nat) (h : n < 16) : hexDigitVal (hexDigitChar n) = some n := by
  have hall : ∀ m : Fin 16, hexDigitVal (hexDigitChar m.val) = some m.val := by decide
  exact hall ⟨n, h⟩

theorem encStrBodyK_eq (cs : List Char) (k : List Char) :
    encStrBodyK cs k = cs.flatMap jsonEscapeChar ++ '"' :: k := by
  induction cs with
  | nil => rfl
  | cons c cs ih => simp [encStrBodyK, ih]

theorem parseStrBody_u (d3 d2 d1 d0 : Char) (a b2 c2 d : Nat) (X : List Char)
    (h3 : hexDigitVal d3 = some a) (h2 : hexDigitVal d2 = some b2)
    (h1 : hexDigitVal d1 = some c2) (h0 : hexDigitVal d0 = some d) :
    parseStrBody ('\\' :: 'u' :: d3 :: d2 :: d1 :: d0 :: X) =
      (parseStrBody X).map
        (fun p => (Char.ofNat (4096 * a + 256 * b2 + 16 * c2 + d) :: p.1, p.2)) := by
  have e : parseStrBody ('\\' :: 'u' :: d3 :: d2 :: d1 :: d0 :: X) =
      match hexDigitVal d3, hexDigitVal d2, hexDigitVal d1, hexDigitVal d0 with
      | some a, some b, some c, some d =>
        (parseStrBody X).map (fun p => (Char.ofNat (4096 * a + 256 * b + 16 * c + d) :: p.1, p.2))
      | _, _, _, _ => none := rfl
  rw [e, h3, h2, h1, h0]

theorem parseStrBody_quote (k : List Char) : parseStrBody ('"' :: k) = some ([], k) := by
  rw [parseStrBody.eq_def]; simp

theorem parseStrBody_escQ (k : List Char) :
    parseStrBody ('\\' :: '"' :: k) =
      (parseStrBody k).map (fun p => ('"' :: p.1, p.2)) := by
  rw [parseStrBody.eq_def]; simp

theorem parseStrBody_escB (k : List Char) :
    parseStrBody ('\\' :: '\\' :: k) =
      (parseStrBody k).map (fun p => ('\\' :: p.1, p.2)) := by
  rw [parseStrBody.eq_def]; simp

theorem parseStrBody_escb (k : List Char) :
    parseStrBody ('\\' :: 'b' :: k) =
      (parseStrBody k).map (fun p => ('\x08' :: p.1, p.2)) := by
  rw [parseStrBody.eq_def]; simp

theorem parseStrBody_escf (k : List Char) :
    parseStrBody ('\\' :: 'f' :: k) =
      (parseStrBody k).map (fun p => ('\x0c' :: p.1, p.2)) := by
  rw [parseStrBody.eq_def]; simp

theorem parseStrBody_escn (k : List Char) :
    parseStrBody ('\\' :: 'n' :: k) =
      (parseStrBody k).map (fun p => ('\n' :: p.1, p.2)) := by
  rw [parseStrBody.eq_def]; simp

theorem parseStrBody_escr (k : List Char) :
    parseStrBody ('\\' :: 'r' :: k) =
      (parseStrBody k).map (fun p => ('\r' :: p.1, p.2)) := by
  rw [parseStrBody.eq_def]; simp

theorem parseStrBody_esct (k : List Char) :
    parseStrBody ('\\' :: 't' :: k) =
      (parseStrBody k).map (fun p => ('\t' :: p.1, p.2)) := by
  rw [parseStrBody.eq_def]; simp

theorem parseStrBody_plain (c : Char) (k : List Char) (h1 : c ≠ '"') (h2 : c ≠ '\\') :
    parseStrBody (c :: k) = (parseStrBody k).map (fun p => (c :: p.1, p.2)) := by
  rw [parseStrBody.eq_def]; simp [h1, h2]

theorem parseStrBody_enc (cs : List Char) : ∀ k : List Char,
    parseStrBody (encStrBodyK cs k) = some (cs, k) := by
  induction cs with
  | nil => intro k; exact parseStrBody_quote k
  | cons c cs ih =>
    intro k
    show parseStrBody (jsonEscapeChar c ++ encStrBodyK cs k) = some (c :: cs, k)
    by_cases q1 : c = '"'
    · subst q1
      rw [show jsonEscapeChar '"' = ['\\', '"'] from rfl]
      rw [show (['\\', '"'] ++ encStrBodyK cs k) = '\\' :: '"' :: encStrBodyK cs k from rfl]
      rw [parseStrBody_escQ, ih k]
      rfl
    · by_cases q2 : c = '\\'
      · subst q2
        rw [show jsonEscapeChar '\\' = ['\\', '\\'] from rfl]
        rw [show (['\\', '\\'] ++ encStrBodyK cs k) = '\\' :: '\\' :: encStrBodyK cs k from rfl]
        rw [parseStrBody_escB, ih k]
        rfl
      · by_cases q3 : c = '\x08'
        · subst q3
          rw [show jsonEscapeChar '\x08' = ['\\', 'b'] from rfl]
          rw [show (['\\', 'b'] ++ encStrBodyK cs k) = '\\' :: 'b' :: encStrBodyK cs k from rfl]
          rw [parseStrBody_escb, ih k]
          rfl
        · by_cases q4 : c = '\x0c'
          · subst q4
            rw [show jsonEscapeChar '\x0c' = ['\\', 'f'] from rfl]
            rw [show (['\\', 'f'] ++ encStrBodyK cs k) = '\\' :: 'f' :: encStrBodyK cs k from rfl]
            rw [parseStrBody_escf, ih k]
            rfl
          · by_cases q5 : c = '\n'
            · subst q5
              rw [show jsonEscapeChar '\n' = ['\\', 'n'] from rfl]
              rw [show (['\\', 'n'] ++ encStrBodyK cs k) = '\\' :: 'n' :: encStrBodyK cs k from rfl]
              rw [parseStrBody_escn, ih k]
              rfl
            · by_cases q6 : c = '\r'
              · subst q6
                rw [show jsonEscapeChar '\r' = ['\\', 'r'] from rfl]
                rw [show (['\\', 'r'] ++ encStrBodyK cs k) = '\\' :: 'r' :: encStrBodyK cs k from
                  rfl]
                rw [parseStrBody_escr, ih k]
                rfl
              · by_cases q7 : c = '\t'
                · subst q7
                  rw [show jsonEscapeChar '\t' = ['\\', 't'] from rfl]
                  rw [show (['\\', 't'] ++ encStrBodyK cs k) = '\\' :: 't' :: encStrBodyK cs k from
                    rfl]
                  rw [parseStrBody_esct, ih k]
                  rfl
                · by_cases q8 : c.toNat < 32
                  · have e : jsonEscapeChar c =
                        ['\\', 'u', '0', '0', hexDigitChar (c.toNat / 16),
                         hexDigitChar (c.toNat % 16)] := by
                      simp only [jsonEscapeChar, if_neg q1, if_neg q2, if_neg q3, if_neg q4,
                        if_neg q5, if_neg q6, if_neg q7, if_pos q8]
                    rw [e]
                    rw [show (['\\', 'u', '0', '0', hexDigitChar (c.toNat / 16),
                        hexDigitChar (c.toNat % 16)] ++ encStrBodyK cs k) =
                      '\\' :: 'u' :: '0' :: '0' :: hexDigitChar (c.toNat / 16) ::
                        hexDigitChar (c.toNat % 16) :: encStrBodyK cs k from rfl]
                    rw [parseStrBody_u '0' '0' (hexDigitChar (c.toNat / 16))
                      (hexDigitChar (c.toNat % 16)) 0 0 (c.toNat / 16) (c.toNat % 16) _
                      (by decide) (by decide)
                      (hexVal_hexDigitChar _ (by omega))
                      (hexVal_hexDigitChar _ (by omega)), ih k]
                    have hv : 4096 * 0 + 256 * 0 + 16 * (c.toNat / 16) + c.toNat % 16 =
                        c.toNat := by omega
                    rw [hv, Char.ofNat_toNat]
                    rfl
                  · have e : jsonEscapeChar c = [c] := by
                      simp only [jsonEscapeChar, if_neg q1, if_neg q2, if_neg q3, if_neg q4,
                        if_neg q5, if_neg q6, if_neg q7, if_neg q8]
                    rw [e]
                    rw [show ([c] ++ encStrBodyK cs k) = c :: encStrBodyK cs k from rfl]
                    rw [parseStrBody_plain c _ q1 q2, ih k]
                    rfl

theorem skipWs_ws (c : Char) (l : List Char) (h : wsChar c = true) :
    skipWs (c :: l) = skipWs l := by
  rw [skipWs.eq_def]
  simp [h]

theorem skipWs_stop (c : Char) (l : List Char) (h : wsChar c = false) :
    skipWs (c :: l) = c :: l := by
  rw [skipWs.eq_def]
  simp [h]

theorem parseKV_enc (kv : String × String) (k : List Char) :
    parseKV (fieldLineK kv k) = some (kv, k) := by
  obtain ⟨k1, v1⟩ := kv
  show parseKV (' ' :: ' ' :: ' ' :: ' ' :: '"' ::
    encStrBodyK k1.data (':' :: ' ' :: '"' :: encStrBodyK v1.data k)) = some ((k1, v1), k)
  unfold parseKV
  rw [skipWs_ws _ _ (by decide), skipWs_ws _ _ (by decide), skipWs_ws _ _ (by decide),
    skipWs_ws _ _ (by decide), skipWs_stop _ _ (by decide)]
  show parseKVAfterKeyQuote
    (encStrBodyK k1.data (':' :: ' ' :: '"' :: encStrBodyK v1.data k)) = some ((k1, v1), k)
  unfold parseKVAfterKeyQuote
  rw [parseStrBody_enc]
  show parseKVAfterKey (String.mk k1.data) (':' :: ' ' :: '"' :: encStrBodyK v1.data k) =
    some ((k1, v1), k)
  unfold parseKVAfterKey
  rw [skipWs_stop _ _ (by decide)]
  show (match skipWs (' ' :: '"' :: encStrBodyK v1.data k) with
    | '"' :: r3 => parseValueQuote (String.mk k1.data) r3
    | _ => none) = some ((k1, v1), k)
  rw [skipWs_ws _ _ (by decide), skipWs_stop _ _ (by decide)]
  show parseValueQuote (String.mk k1.data) (encStrBodyK v1.data k) = some ((k1, v1), k)
  unfold parseValueQuote
  rw [parseStrBody_enc]

theorem parseKV_nl (l : List Char) : parseKV ('\n' :: l) = parseKV l := by
  unfold parseKV
  rw [skipWs_ws _ _ (by decide)]

theorem parseObjMembers_nl (fuel : Nat) (l : List Char) :
    parseObjMembers fuel ('\n' :: l) = parseObjMembers fuel l := by
  cases fuel with
  | zero => rfl
  | succ fuel =>
    show (match parseKV ('\n' :: l) with
      | none => none
      | some (kv, r) =>
        match skipWs r with
        | ',' :: r2 => (parseObjMembers fuel r2).map (fun p : Row × List Char => (kv :: p.1, p.2))
        | '\x7d' :: r2 => some ([kv], r2)
        | _ => none) =
      (match parseKV l with
      | none => none
      | some (kv, r) =>
        match skipWs r with
        | ',' :: r2 => (parseObjMembers fuel r2).map (fun p : Row × List Char => (kv :: p.1, p.2))
        | '\x7d' :: r2 => some ([kv], r2)
        | _ => none)
    rw [parseKV_nl]

theorem parseObjMembers_enc (fields : List (String × String)) : ∀ (fuel : Nat) (k : List Char),
    fields ≠ [] → fields.length ≤ fuel →
    parseObjMembers fuel (membersTextK fields ('\n' :: ' ' :: ' ' :: '\x7d' :: k)) =
      some (fields, k) := by
  induction fields with
  | nil => intro fuel k h _; exact absurd rfl h
  | cons kv rest ih =>
    intro fuel k _ hlen
    cases fuel with
    | zero => simp at hlen
    | succ fuel =>
      cases rest with
      | nil =>
        show (match parseKV (fieldLineK kv ('\n' :: ' ' :: ' ' :: '\x7d' :: k)) with
          | none => none
          | some (kv', r) =>
            match skipWs r with
            | ',' :: r2 =>
              (parseObjMembers fuel r2).map (fun p : Row × List Char => (kv' :: p.1, p.2))
            | '\x7d' :: r2 => some ([kv'], r2)
            | _ => none) = some ([kv], k)
        rw [parseKV_enc]
        show (match skipWs ('\n' :: ' ' :: ' ' :: '\x7d' :: k) with
          | ',' :: r2 =>
            (parseObjMembers fuel r2).map (fun p : Row × List Char => (kv :: p.1, p.2))
          | '\x7d' :: r2 => some ([kv], r2)
          | _ => none) = some ([kv], k)
        rw [skipWs_ws _ _ (by decide), skipWs_ws _ _ (by decide), skipWs_ws _ _ (by decide),
          skipWs_stop _ _ (by decide)]
        rfl
      | cons kv2 rest2 =>
        show (match parseKV (fieldLineK kv (',' :: '\n' ::
              membersTextK (kv2 :: rest2) ('\n' :: ' ' :: ' ' :: '\x7d' :: k))) with
          | none => none
          | some (kv', r) =>
            match skipWs r with
            | ',' :: r2 =>
              (parseObjMembers fuel r2).map (fun p : Row × List Char => (kv' :: p.1, p.2))
            | '\x7d' :: r2 => some ([kv'], r2)
            | _ => none) = some (kv :: kv2 :: rest2, k)
        rw [parseKV_enc]
        show (match skipWs (',' :: '\n' ::
            membersTextK (kv2 :: rest2) ('\n' :: ' ' :: ' ' :: '\x7d' :: k)) with
          | ',' :: r2 =>
            (parseObjMembers fuel r2).map (fun p : Row × List Char => (kv :: p.1, p.2))
          | '\x7d' :: r2 => some ([kv], r2)
          | _ => none) = some (kv :: kv2 :: rest2, k)
        rw [skipWs_stop _ _ (by decide)]
        show (parseObjMembers fuel ('\n' ::
            membersTextK (kv2 :: rest2) ('\n' :: ' ' :: ' ' :: '\x7d' :: k))).map
          (fun p : Row × List Char => (kv :: p.1, p.2)) = some (kv :: kv2 :: rest2, k)
        rw [parseObjMembers_nl,
          ih fuel k (by simp) (by simpa using Nat.le_of_succ_le_succ hlen)]
        rfl

theorem parseObj_enc (row : Row) (fuel : Nat) (k : List Char) (hlen : row.length ≤ fuel) :
    parseObj fuel (' ' :: ' ' :: rowTextK row k) = some (row, k) := by
  cases row with
  | nil =>
    show parseObj fuel (' ' :: ' ' :: '\x7b' :: '\x7d' :: k) = some ([], k)
    unfold parseObj
    rw [skipWs_ws _ _ (by decide), skipWs_ws _ _ (by decide), skipWs_stop _ _ (by decide)]
    show parseObjBody fuel ('\x7d' :: k) = some ([], k)
    unfold parseObjBody
    rw [skipWs_stop _ _ (by decide)]
    rfl
  | cons kv rest =>
    show parseObj fuel (' ' :: ' ' :: '\x7b' :: '\n' ::
      membersTextK (kv :: rest) ('\n' :: ' ' :: ' ' :: '\x7d' :: k)) = some (kv :: rest, k)
    unfold parseObj
    rw [skipWs_ws _ _ (by decide), skipWs_ws _ _ (by decide), skipWs_stop _ _ (by decide)]
    show parseObjBody fuel ('\n' ::
      membersTextK (kv :: rest) ('\n' :: ' ' :: ' ' :: '\x7d' :: k)) = some (kv :: rest, k)
    obtain ⟨X, hX⟩ : ∃ X, membersTextK (kv :: rest) ('\n' :: ' ' :: ' ' :: '\x7d' :: k) =
        fieldLineK kv X := by
      cases rest
      · exact ⟨_, rfl⟩
      · exact ⟨_, rfl⟩
    rw [hX]
    unfold parseObjBody
    rw [show skipWs ('\n' :: fieldLineK kv X) =
      '"' :: encStrBodyK kv.1.data (':' :: ' ' :: '"' :: encStrBodyK kv.2.data X) from by
        show skipWs ('\n' :: ' ' :: ' ' :: ' ' :: ' ' :: '"' ::
          encStrBodyK kv.1.data (':' :: ' ' :: '"' :: encStrBodyK kv.2.data X)) = _
        rw [skipWs_ws _ _ (by decide), skipWs_ws _ _ (by decide), skipWs_ws _ _ (by decide),
          skipWs_ws _ _ (by decide), skipWs_ws _ _ (by decide), skipWs_stop _ _ (by decide)]]
    show parseObjMembers fuel ('\n' :: fieldLineK kv X) = some (kv :: rest, k)
    rw [parseObjMembers_nl, ← hX]
    exact parseObjMembers_enc (kv :: rest) fuel k (by simp) hlen

theorem parseObj_nl (fuel : Nat) (l : List Char) :
    parseObj fuel ('\n' :: l) = parseObj fuel l := by
  unfold parseObj
  rw [skipWs_ws _ _ (by decide)]

theorem parseRowsLoop_nl (F fuel : Nat) (l : List Char) :
    parseRowsLoop F fuel ('\n' :: l) = parseRowsLoop F fuel l := by
  cases fuel with
  | zero => rfl
  | succ fuel =>
    show (match parseObj F ('\n' :: l) with
      | none => none
      | some (row, r) =>
        match skipWs r with
        | ',' :: r2 =>
          (parseRowsLoop F fuel r2).map (fun p : List Row × List Char => (row :: p.1, p.2))
        | ']' :: r2 => some ([row], r2)
        | _ => none) =
      (match parseObj F l with
      | none => none
      | some (row, r) =>
        match skipWs r with
        | ',' :: r2 =>
          (parseRowsLoop F fuel r2).map (fun p : List Row × List Char => (row :: p.1, p.2))
        | ']' :: r2 => some ([row], r2)
        | _ => none)
    rw [parseObj_nl]

theorem parseRowsLoop_enc (F : Nat) (rows : List Row) : ∀ (fuel : Nat) (k : List Char),
    rows ≠ [] → rows.length ≤ fuel → (∀ r ∈ rows, r.length ≤ F) →
    parseRowsLoop F fuel (rowsItemsK rows ('\n' :: ']' :: k)) = some (rows, k) := by
  induction rows with
  | nil => intro fuel k h _ _; exact absurd rfl h
  | cons r0 rest ih =>
    intro fuel k _ hlen hmem
    cases fuel with
    | zero => simp at hlen
    | succ fuel =>
      cases rest with
      | nil =>
        show (match parseObj F (' ' :: ' ' :: rowTextK r0 ('\n' :: ']' :: k)) with
          | none => none
          | some (row, r) =>
            match skipWs r with
            | ',' :: r2 =>
              (parseRowsLoop F fuel r2).map (fun p : List Row × List Char => (row :: p.1, p.2))
            | ']' :: r2 => some ([row], r2)
            | _ => none) = some ([r0], k)
        rw [parseObj_enc r0 F _ (hmem r0 (List.mem_cons_self _ _))]
        show (match skipWs ('\n' :: ']' :: k) with
          | ',' :: r2 =>
            (parseRowsLoop F fuel r2).map (fun p : List Row × List Char => (r0 :: p.1, p.2))
          | ']' :: r2 => some ([r0], r2)
          | _ => none) = some ([r0], k)
        rw [skipWs_ws _ _ (by decide), skipWs_stop _ _ (by decide)]
        rfl
      | cons r1 rest2 =>
        show (match parseObj F (' ' :: ' ' :: rowTextK r0
            (',' :: '\n' :: rowsItemsK (r1 :: rest2) ('\n' :: ']' :: k))) with
          | none => none
          | some (row, r) =>
            match skipWs r with
            | ',' :: r2 =>
              (parseRowsLoop F fuel r2).map (fun p : List Row × List Char => (row :: p.1, p.2))
            | ']' :: r2 => some ([row], r2)
            | _ => none) = some (r0 :: r1 :: rest2, k)
        rw [parseObj_enc r0 F _ (hmem r0 (List.mem_cons_self _ _))]
        show (match skipWs (',' :: '\n' :: rowsItemsK (r1 :: rest2) ('\n' :: ']' :: k)) with
          | ',' :: r2 =>
            (parseRowsLoop F fuel r2).map (fun p : List Row × List Char => (r0 :: p.1, p.2))
          | ']' :: r2 => some ([r0], r2)
          | _ => none) = some (r0 :: r1 :: rest2, k)
        rw [skipWs_stop _ _ (by decide)]
        show (parseRowsLoop F fuel
            ('\n' :: rowsItemsK (r1 :: rest2) ('\n' :: ']' :: k))).map
          (fun p : List Row × List Char => (r0 :: p.1, p.2)) = some (r0 :: r1 :: rest2, k)
        rw [parseRowsLoop_nl,
          ih fuel k (by simp) (by simpa using Nat.le_of_succ_le_succ hlen)
            (fun r hr => hmem r (List.mem_cons_of_mem _ hr))]
        rfl

theorem encStrBodyK_len (cs : List Char) : ∀ k : List Char,
    k.length ≤ (encStrBodyK cs k).length := by
  induction cs with
  | nil => intro k; simp [encStrBodyK]
  | cons c cs ih =>
    intro k
    have := ih k
    simp only [encStrBodyK, List.length_append]
    omega

theorem fieldLineK_len (kv : String × String) (k : List Char) :
    k.length + 1 ≤ (fieldLineK kv k).length := by
  have h1 := encStrBodyK_len kv.2.data k
  have h2 := encStrBodyK_len kv.1.data (':' :: ' ' :: '"' :: encStrBodyK kv.2.data k)
  simp only [List.length_cons] at *
  simp only [fieldLineK, List.length_cons]
  omega

theorem membersTextK_len (fields : List (String × String)) : ∀ k : List Char,
    k.length + fields.length ≤ (membersTextK fields k).length := by
  induction fields with
  | nil => intro k; simp [membersTextK]
  | cons kv rest ih =>
    intro k
    cases rest with
    | nil =>
      have := fieldLineK_len kv k
      simp only [membersTextK, List.length_cons, List.length_nil]
      omega
    | cons kv2 rest2 =>
      have h1 := ih k
      have h2 := fieldLineK_len kv (',' :: '\n' :: membersTextK (kv2 :: rest2) k)
      simp only [membersTextK, List.length_cons] at *
      omega

theorem rowTextK_len (row : Row) (k : List Char) :
    k.length + row.length + 1 ≤ (rowTextK row k).length := by
  cases row with
  | nil => simp [rowTextK]
  | cons kv rest =>
    have := membersTextK_len (kv :: rest) ('\n' :: ' ' :: ' ' :: '\x7d' :: k)
    simp only [rowTextK, List.length_cons] at *
    omega

theorem rowsItemsK_len (rows : List Row) : ∀ k : List Char,
    k.length + rows.length ≤ (rowsItemsK rows k).length := by
  induction rows with
  | nil => intro k; simp [rowsItemsK]
  | cons r0 rest ih =>
    intro k
    cases rest with
    | nil =>
      have := rowTextK_len r0 k
      simp only [rowsItemsK, List.length_cons, List.length_nil]
      omega
    | cons r1 rest2 =>
      have h1 := ih k
      have h2 := rowTextK_len r0 (',' :: '\n' :: rowsItemsK (r1 :: rest2) k)
      simp only [rowsItemsK, List.length_cons] at *
      omega

theorem rowsItemsK_mem_len (rows : List Row) : ∀ (k : List Char) (r : Row), r ∈ rows →
    r.length ≤ (rowsItemsK rows k).length := by
  induction rows with
  | nil => intro k r hr; cases hr
  | cons r0 rest ih =>
    intro k r hr
    cases rest with
    | nil =>
      rcases List.mem_cons.mp hr with rfl | h
      · have := rowTextK_len r k
        simp only [rowsItemsK, List.length_cons]
        omega
      · cases h
    | cons r1 rest2 =>
      rcases List.mem_cons.mp hr with rfl | h
      · have := rowTextK_len r (',' :: '\n' :: rowsItemsK (r1 :: rest2) k)
        simp only [rowsItemsK, List.length_cons] at *
        omega
      · have h1 := ih k r h
        have h2 := rowTextK_len r0 (',' :: '\n' :: rowsItemsK (r1 :: rest2) k)
        simp only [rowsItemsK, List.length_cons] at *
        omega

theorem jsonParseRows_stringify (rows : List Row) (hne : rows ≠ []) :
    jsonParseRows (jsonStringifyRows rows) = some rows := by
  obtain ⟨r0, rest, rfl⟩ : ∃ r0 rest, rows = r0 :: rest := by
    cases rows with
    | nil => exact absurd rfl hne
    | cons a t => exact ⟨a, t, rfl⟩
  have hstr : jsonStringifyRows (r0 :: rest) =
      String.mk ('[' :: '\n' :: rowsItemsK (r0 :: rest) ['\n', ']']) := by
    unfold jsonStringifyRows
    rw [if_neg (by simp)]
  rw [hstr]
  have hfuel : (r0 :: rest).length ≤
      ('[' :: '\n' :: rowsItemsK (r0 :: rest) ['\n', ']'] : List Char).length + 1 := by
    have := rowsItemsK_len (r0 :: rest) (['\n', ']'] : List Char)
    simp only [List.length_cons] at *
    omega
  have hmem : ∀ r ∈ r0 :: rest, r.length ≤
      ('[' :: '\n' :: rowsItemsK (r0 :: rest) ['\n', ']'] : List Char).length + 1 := by
    intro r hr
    have := rowsItemsK_mem_len (r0 :: rest) (['\n', ']'] : List Char) r hr
    simp only [List.length_cons] at *
    omega
  show (match skipWs ('[' :: '\n' :: rowsItemsK (r0 :: rest) ['\n', ']']) with
    | '[' :: r =>
      (match skipWs r with
       | ']' :: r2 => if (skipWs r2).isEmpty then some [] else none
       | _ =>
         match parseRowsLoop
             (('[' :: '\n' :: rowsItemsK (r0 :: rest) ['\n', ']'] : List Char).length + 1)
             (('[' :: '\n' :: rowsItemsK (r0 :: rest) ['\n', ']'] : List Char).length + 1) r with
         | some (rows', rest') => if (skipWs rest').isEmpty then some rows' else none
         | none => none)
    | _ => none) = some (r0 :: rest)
  rw [skipWs_stop _ _ (by decide)]
  obtain ⟨X, hX⟩ : ∃ X, rowsItemsK (r0 :: rest) (['\n', ']'] : List Char) =
      ' ' :: ' ' :: rowTextK r0 X := by
    cases rest
    · exact ⟨_, rfl⟩
    · exact ⟨_, rfl⟩
  obtain ⟨Y, hY⟩ : ∃ Y, rowTextK r0 X = '\x7b' :: Y := by
    cases r0
    · exact ⟨_, rfl⟩
    · exact ⟨_, rfl⟩
  show (match skipWs ('\n' :: rowsItemsK (r0 :: rest) ['\n', ']']) with
    | ']' :: r2 => if (skipWs r2).isEmpty then some [] else none
    | _ =>
      match parseRowsLoop
          (('[' :: '\n' :: rowsItemsK (r0 :: rest) ['\n', ']'] : List Char).length + 1)
          (('[' :: '\n' :: rowsItemsK (r0 :: rest) ['\n', ']'] : List Char).length + 1)
          ('\n' :: rowsItemsK (r0 :: rest) ['\n', ']']) with
      | some (rows', rest') => if (skipWs rest').isEmpty then some rows' else none
      | none => none) = some (r0 :: rest)
  rw [show skipWs ('\n' :: rowsItemsK (r0 :: rest) ['\n', ']']) = '\x7b' :: Y from by
    rw [hX, hY]
    rw [skipWs_ws _ _ (by decide), skipWs_ws _ _ (by decide), skipWs_ws _ _ (by decide),
      skipWs_stop _ _ (by decide)]]
  show (match parseRowsLoop
      (('[' :: '\n' :: rowsItemsK (r0 :: rest) ['\n', ']'] : List Char).length + 1)
      (('[' :: '\n' :: rowsItemsK (r0 :: rest) ['\n', ']'] : List Char).length + 1)
      ('\n' :: rowsItemsK (r0 :: rest) ['\n', ']']) with
    | some (rows', rest') => if (skipWs rest').isEmpty then some rows' else none
    | none => none) = some (r0 :: rest)
  rw [parseRowsLoop_nl,
    parseRowsLoop_enc _ (r0 :: rest) _ ([] : List Char) (by simp) hfuel hmem]
  rfl

/-- C6: for every non-empty filtered row list, `downloadJSON` serializes
exactly the rows of `getCurrentFilteredData` with
`JSON.stringify(data, null, 2)`, and parsing that JSON text yields
exactly those row objects back: the export encoding round-trips. -/
theorem C6_downloadJSON_roundtrip (currentView : String) (currentData : Option Document)
    (search countryFilter sortOption : String) (rows : List Row)
    (hget : getCurrentFilteredData currentView currentData search countryFilter sortOption =
      some rows)
    (hne : rows ≠ []) :
    downloadJSON currentView currentData search countryFilter sortOption =
      .file (jsonStringifyRows rows) ∧
    jsonParseRows (jsonStringifyRows rows) = some rows := by
  constructor
  · have hlen : (rows.length == 0) = false := by
      cases rows with
      | nil => exact absurd rfl hne
      | cons a t => rfl
    unfold downloadJSON
    rw [hget]
    simp [hlen]
  · exact jsonParseRows_stringify rows hne

theorem C6_downloadJSON_roundtrip_witness :
    jsonParseRows (jsonStringifyRows [itemRow "United States" ⟨"Zeta", none⟩]) =
      some [itemRow "United States" ⟨"Zeta", none⟩] :=
  (C6_downloadJSON_roundtrip "manufacturers" (some sampleDoc) "zeta" "all" "alphabetical"
    [itemRow "United States" ⟨"Zeta", none⟩] (by decide) (by decide)).2

end ChannelInsights
